import Mathlib

/-!
Verification of the eo3 dataset-metadata validation library.

This file gives a shallow embedding, in Lean 4, of the core data model and
operations of the eo3 repository (field-offset resolution, the property
normaliser, the `DatasetMetadata` accessor, and the layered validation
pipeline), together with theorems settling a fixed list of claims about the
behaviour of that code.

Conventions used throughout:

* Python nested documents (parsed YAML/JSON trees) are embedded as the
  inductive type `JVal`.
* Python mutable objects are embedded by explicit state passing: a method
  that mutates `self` and may raise becomes a function returning the new
  state together with an optional exception value.
* Machine/floating-point numerics are embedded exactly, over `Int`/`Rat`,
  with binary floating-point grids described by mantissa/exponent bounds.
* External collaborators (the JSON-schema validator, CRS parser, UUID
  parser, value converters) are parameters of the embedded functions.
-/

set_option maxRecDepth 20000

namespace EO3

/-! ## Documents

`JVal` embeds the nested mapping/sequence/scalar trees that the Python code
manipulates (`dict` / `list` / `str` / `int` / `bool` / `None`).  Mappings
are association lists in document order.
-/

inductive JVal where
  | nullV
  | boolV (b : Bool)
  | intV (n : Int)
  | strV (s : String)
  | arrV (xs : List JVal)
  | dictV (es : List (String × JVal))
  deriving Repr

mutual

/-- Structural equality of documents, embedding Python `==` on parsed
document trees.  (Python `dict` equality ignores key order; the documents
compared by the code under verification are in canonical order, so ordered
comparison agrees on them.) -/
def JVal.beq : JVal → JVal → Bool
  | .nullV, .nullV => true
  | .boolV a, .boolV b => a == b
  | .intV a, .intV b => a == b
  | .strV a, .strV b => a == b
  | .arrV xs, .arrV ys => JVal.beqList xs ys
  | .dictV xs, .dictV ys => JVal.beqEntries xs ys
  | _, _ => false

def JVal.beqList : List JVal → List JVal → Bool
  | [], [] => true
  | x :: xs, y :: ys => JVal.beq x y && JVal.beqList xs ys
  | _, _ => false

def JVal.beqEntries : List (String × JVal) → List (String × JVal) → Bool
  | [], [] => true
  | (k, v) :: xs, (k2, v2) :: ys => k == k2 && JVal.beq v v2 && JVal.beqEntries xs ys
  | _, _ => false

end

instance : BEq JVal := ⟨JVal.beq⟩

/-- Mapping lookup (`d[k]` / `d.get(k)`) on an association-list dictionary. -/
def entLookup (k : String) : List (String × JVal) → Option JVal
  | [] => none
  | (k2, v) :: rest => if k == k2 then some v else entLookup k rest

/-- Embeds `toolz.get_in(offset, doc, default=None)`: walk a list of keys
down a nested mapping, `none` when any step is absent or not a mapping. -/
def getIn : List String → JVal → Option JVal
  | [], v => some v
  | k :: ks, .dictV es =>
      match entLookup k es with
      | some v => getIn ks v
      | none => none
  | _ :: _, _ => none

/-! ## Field descriptors (`eo3/fields.py`)

`RangeField.extract` resolves every offset of the min-side list and of the
max-side list, converts each value that is present, and collapses the two
sides with `min`/`max`.  The converter (`str`/`float`/`int`/`Decimal`/
`parse_time`) is a parameter: it is external, pure, and ordered-codomain.
-/

/-- The raw-resolution helper `extract_raw` inside `RangeField.extract`:
`[conv v for v in (toolz.get_in(p, doc) for p in paths) if v is not None]`. -/
def extractRaw {α : Type} (conv : JVal → α) (paths : List (List String)) (doc : JVal) :
    List α :=
  ((paths.map (fun p => getIn p doc)).reduceOption).map conv

/-- Embeds `RangeField.extract`: returns `none` for Python `None`, or
`some (v_min, v_max)` for `Range(v_min, v_max)` where each side is itself
optional. -/
def rangeFieldExtract {α : Type} [LinearOrder α] (conv : JVal → α)
    (minOffset maxOffset : List (List String)) (doc : JVal) :
    Option (Option α × Option α) :=
  let vMins := extractRaw conv minOffset doc
  let vMaxs := extractRaw conv maxOffset doc
  let vMin := vMins.min?
  let vMax := vMaxs.max?
  if vMin = none ∧ vMax = none then none
  else some (vMin, vMax)

/-! ## `contains` (`eo3/utils/utils.py`)

Superset check between two document trees, used for the product
"template properties" consistency rule.
-/

mutual

/-- Embeds `contains(v1, v2, case_sensitive)` from `eo3/utils/utils.py`. -/
def containsFn (cs : Bool) : JVal → JVal → Bool
  | .strV s1, v2 =>
      if cs then JVal.beq (.strV s1) v2
      else
        match v2 with
        | .strV s2 => s1.toLower == s2.toLower
        | _ => false
  | .dictV _, .nullV => true
  | .dictV es1, .dictV es2 => containsEntries cs es1 es2
  | v1, v2 => JVal.beq v1 v2

/-- The `all(contains(v1.get(k, object()), v, ...) for k, v in v2.items())`
loop of the mapping case; a missing key behaves as the fresh `object()`
sentinel, which is equal to nothing. -/
def containsEntries (cs : Bool) (es1 : List (String × JVal)) :
    List (String × JVal) → Bool
  | [] => true
  | (k, v) :: rest =>
      (match entLookup k es1 with
       | some w => containsFn cs w v
       | none => false) && containsEntries cs es1 rest

end

/-! ## Validation messages (`eo3/validation_msg.py`) -/

inductive Level where
  | info
  | warning
  | error
  deriving DecidableEq, Repr

/-- Embeds `ValidationMessage`: an immutable structured message. -/
structure VMessage where
  level : Level
  code : String
  reason : String
  hint : Option String
  context : List (String × String)
  deriving DecidableEq, Repr

/-- Embeds `ContextualMessager`: shared context plus a running error count.
The Python object is mutable; we pass its state explicitly, so a method
that mutates it returns the new state. -/
structure Msgr where
  context : List (String × String)
  errors : Nat
  deriving DecidableEq, Repr

def Msgr.info (m : Msgr) (code reason : String) : VMessage :=
  ⟨Level.info, code, reason, none, m.context⟩

def Msgr.warning (m : Msgr) (code reason : String) : VMessage :=
  ⟨Level.warning, code, reason, none, m.context⟩

def Msgr.warningH (m : Msgr) (code reason hint : String) : VMessage :=
  ⟨Level.warning, code, reason, some hint, m.context⟩

/-- `ContextualMessager.error`: increments the error counter and returns the
built message. -/
def Msgr.error (m : Msgr) (code reason : String) : VMessage × Msgr :=
  (⟨Level.error, code, reason, none, m.context⟩, ⟨m.context, m.errors + 1⟩)

def Msgr.errorH (m : Msgr) (code reason hint : String) : VMessage × Msgr :=
  (⟨Level.error, code, reason, some hint, m.context⟩, ⟨m.context, m.errors + 1⟩)

/-- `dict.copy()` followed by `dict.update(kwargs)`: replace the value of a
key that is present, append a key that is not. -/
def ctxSet (ctx : List (String × String)) (k v : String) : List (String × String) :=
  if ctx.any (fun p => p.1 == k) then
    ctx.map (fun p => if p.1 == k then (p.1, v) else p)
  else ctx ++ [(k, v)]

def ctxUpdate (ctx : List (String × String)) (kws : List (String × String)) :
    List (String × String) :=
  kws.foldl (fun c p => ctxSet c p.1 p.2) ctx

/-- Embeds `ContextualMessager.sub_msg`: a fresh messager whose context is a
copy of the parent context updated with the keyword arguments, and whose
error counter starts at zero. -/
def Msgr.subMsg (m : Msgr) (kws : List (String × String)) : Msgr :=
  ⟨ctxUpdate m.context kws, 0⟩

/-- Number of error-level messages in a message list. -/
def countErrors (msgs : List VMessage) : Nat :=
  (msgs.filter (fun v => v.level == Level.error)).length

/-! ## CRS and grid validation (`eo3/validate.py`, `_validate_crs` and
`_validate_grids`)

The CRS parser is an external collaborator (`rasterio.crs.CRS`); it is a
parameter recording, for each CRS string, whether `CRS.from_string`
succeeds and what `CRS.from_wkt` yields.
-/

structure WktCrs where
  isEpsgCode : Bool
  toEpsg : Int

structure CrsWorld where
  fromStringOk : String → Bool
  fromWkt : String → Option WktCrs

/-- ASCII lower-casing (Python `str.lower` restricted to the ASCII CRS
strings compared here), kernel-computable. -/
def strLower (s : String) : String :=
  ⟨s.data.map (fun c => if c.isUpper then Char.ofNat (c.toNat + 32) else c)⟩

/-- Python `str.startswith`, kernel-computable. -/
def strHasPrefix (pre s : String) : Bool :=
  pre.data.isPrefixOf s.data

/-- Embeds `_validate_crs(crs, msg)`. -/
def validateCrs (w : CrsWorld) (crs : String) (m : Msgr) : List VMessage × Msgr :=
  if strHasPrefix ("epsg:") (strLower crs) then
    let (l1, m1) :=
      if w.fromStringOk crs then ([], m)
      else
        let (e, m') := m.error ("invalid_crs_epsg") ("Unknown EPSG code")
        ([e], m')
    let l2 :=
      if strLower crs ≠ crs then [m1.warning ("mixed_crs_case") ("Recommend lowercase epsg prefix")]
      else []
    (l1 ++ l2, m1)
  else
    match w.fromWkt crs with
    | none =>
        let (e, m') := m.error ("invalid_crs") ("Expect either an epsg code or a WKT string")
        ([e], m')
    | some wc =>
        if wc.isEpsgCode then
          ([m.warning ("non_epsg") ("Prefer an EPSG code to a WKT when possible")], m)
        else ([], m)

/-- Embeds `_validate_grids(grids, default_crs, msg)`.  A grid is a name
paired with its (optional) declared CRS.  Grids that declare a CRS are
validated through a per-grid sub-messager; grids that do not are assigned
the dataset default (a mutation of the grid object, invisible here). -/
def validateGrids (w : CrsWorld) (grids : List (String × Option String)) (m : Msgr) :
    List VMessage × Msgr :=
  match grids with
  | [] => ([], m)
  | (name, ocrs) :: rest =>
      let here : List VMessage :=
        match ocrs with
        | none => []
        | some c => (validateCrs w c (m.subMsg [(("grid" : String), name)])).1
      let (restMsgs, m1) := validateGrids w rest m
      (here ++ restMsgs, m1)

/-! ## Dataset validation pipeline (`eo3/validate.py`, `validate_dataset`)

Stages 1 (schema) and 2 (lineage) are embedded concretely below; the
remaining stage bodies (geometry, measurements, properties, accessories,
product, metadata-type coverage, on-disk data) depend on further external
collaborators and are parameters of the orchestrator, each a function from
the shared messager state to the messages it yields plus the updated
messager state.
-/

def ODC_DATASET_SCHEMA_URL : String := "https://schemas.opendatacube.org/dataset"

def substrB (needle hay : String) : Bool :=
  go hay.data
where
  go : List Char → Bool
  | [] => needle.data.isEmpty
  | c :: cs => needle.data.isPrefixOf (c :: cs) || go cs

/-- The `for error in DATASET_SCHEMA.iter_errors(doc)` loop of
`_validate_ds_to_schema`; each external structural violation is a pair of
its `absolute_path` and its `message`. -/
def schemaViolationMsgs : List (List String × String) → Msgr → List VMessage × Msgr
  | [], m => ([], m)
  | (path, vmsg) :: rest, m =>
      let displayable := String.intercalate ("." : String) path
      let contextStr := if displayable ≠ ("" : String) then ("(") ++ displayable ++ (") ") else ("" : String)
      let (e, m1) :=
        if displayable = ("crs" : String) ∧ substrB ("not of type") vmsg then
          m.errorH ("structure") (contextStr ++ vmsg ++ (" "))
            ("epsg codes should be prefixed with epsg")
        else m.error ("structure") (contextStr ++ vmsg ++ (" "))
      let (restMsgs, m2) := schemaViolationMsgs rest m1
      (e :: restMsgs, m2)

/-- Embeds `_validate_ds_to_schema(doc, msg)`: the `$schema` field must be
present and equal to the ODC dataset schema URL, then every structural
violation reported by the external schema validator becomes an error. -/
def validateDsToSchema (docSchema : Option String)
    (violations : List (List String × String)) (m : Msgr) : List VMessage × Msgr :=
  match docSchema with
  | none =>
      let (e, m1) := m.error ("no_schema") ("No schema field")
      ([e], m1)
  | some s =>
      if s ≠ ODC_DATASET_SCHEMA_URL then
        let (e, m1) := m.error ("unknown_doc_type") ("Unknown doc schema: only ODC datasets are supported")
        ([e], m1)
      else schemaViolationMsgs violations m

/-- The inner `for parent_id in parent_ids` loop of `_validate_lineage`:
every source id must parse as a UUID (the UUID parser is external). -/
def lineageIdMsgs (isUUID : String → Bool) (label : String) :
    List String → Msgr → List VMessage × Msgr
  | [], m => ([], m)
  | pid :: rest, m =>
      let (here, m1) :=
        if isUUID pid then ([], m)
        else
          let (e, m') := m.error ("invalid_source_id") (("Lineage id in ") ++ label ++ (" is not a valid UUID ") ++ pid)
          ([e], m')
      let (restMsgs, m2) := lineageIdMsgs isUUID label rest m1
      (here ++ restMsgs, m2)

/-- Embeds `_validate_lineage(lineage, msg)`. -/
def validateLineage (isUUID : String → Bool) :
    List (String × List String) → Msgr → List VMessage × Msgr
  | [], m => ([], m)
  | (label, pids) :: rest, m =>
      let infoMsgs :=
        if pids.length > 1 then
          [m.info ("nonflat_lineage") (("Lineage label ") ++ label ++ (" has multiple sources and may get flattened on indexing"))]
        else []
      let (errs, m1) := lineageIdMsgs isUUID label pids m
      let (restMsgs, m2) := validateLineage isUUID rest m1
      (infoMsgs ++ errs ++ restMsgs, m2)

/-- A validation stage, as seen by the orchestrator: from the shared
messager state to the yielded messages and the updated messager state. -/
def Stage : Type := Msgr → List VMessage × Msgr

/-- A sound abstraction of every concrete stage of `validate.py`: a stage
never increments the shared error counter by more than the number of
error-level messages it yields.  (Stages that report some errors through a
sub-messager, such as `_validate_grids`, increment it by less.) -/
def StageErrBounded (s : Stage) : Prop :=
  ∀ m : Msgr, ((s m).2).errors ≤ m.errors + countErrors (s m).1

/-- A stage all of whose error-level messages are built by `msg.error` on
the shared messager (true of the schema and lineage stages). -/
def StageCountsErrors (s : Stage) : Prop :=
  ∀ m : Msgr, ((s m).2).errors = m.errors + countErrors (s m).1

/-- The pre-stage block of `validate_dataset`: the deprecation warning for
`expect.allow_extra_measurements`, the `no_product` error when running
thorough without a product definition, and the messager as it stands
before stage 1. -/
def vdPre (thorough resolvedProduct allowExtraNonempty : Bool)
    (ctx0 : List (String × String)) : List VMessage × List VMessage × Msgr :=
  let m0 : Msgr := ⟨ctx0, 0⟩
  let preW : List VMessage :=
    if allowExtraNonempty then [m0.warning ("extra_measurements") ("Extra measurements are deprecated")]
    else []
  let pre1 :=
    if thorough && !resolvedProduct then
      let em := m0.error ("no_product") ("Must supply product definition for thorough validation")
      ([em.1], em.2)
    else ([], m0)
  (preW, pre1.1, pre1.2)

/-- Embeds the `validate_dataset` orchestrator: the linear stage sequence
with its `if msg.errors: return` early exits.

Document-derived facts appearing in the orchestrator body itself are
parameters: `thorough`, whether a product definition was supplied or
resolved (`resolvedProduct`), whether a metadata-type definition was given,
whether `expect.allow_extra_measurements` is non-empty, the `$schema`
field, the external schema-validator output, the lineage section, the
external UUID parser, the result of `serialise.from_doc` (`serialOk`),
whether `dataset.product.href` is set, whether the deprecated `location`
key is present, `expect.require_geometry`, and whether the dataset has
measurements. -/
def validate_dataset
    (thorough resolvedProduct mdtGiven allowExtraNonempty : Bool)
    (ctx0 : List (String × String))
    (docSchema : Option String)
    (schemaViolations : List (List String × String))
    (lineage : List (String × List String))
    (isUUID : String → Bool)
    (serialOk : Except String Unit)
    (productHref hasLocation : Bool)
    (requireGeometry hasMeasurements : Bool)
    (geoStage measStage propStage accStage prodStage mdtStage dataStage : Stage) :
    List VMessage :=
  let p := vdPre thorough resolvedProduct allowExtraNonempty ctx0
  let preW := p.1
  let preE := p.2.1
  let m1 := p.2.2
  let st1 := validateDsToSchema docSchema schemaViolations m1
  let s1 := st1.1
  let m2 := st1.2
  if m2.errors ≠ 0 then preW ++ preE ++ s1
  else
    let st2 := validateLineage isUUID lineage m2
    let s2 := st2.1
    let m3 := st2.2
    if m3.errors ≠ 0 then preW ++ preE ++ s1 ++ s2
    else
      match serialOk with
      | .error etext =>
          let (e, _) := m3.error ("serialisation_failure") (("Serialisation failed: ") ++ etext)
          preW ++ preE ++ s1 ++ s2 ++ [e]
      | .ok _ =>
          let basic : List VMessage :=
            (if productHref then [] else [m3.info ("product_href") ("A url href is recommended for products")]) ++
            (if hasLocation then [m3.warning ("dataset_location") ("Location is deprecated, use locations instead")] else [])
          let st3 := geoStage m3
          let g := st3.1
          let m4 := st3.2
          if m4.errors ≠ 0 then preW ++ preE ++ s1 ++ s2 ++ basic ++ g
          else
            let st4 := if requireGeometry && hasMeasurements then measStage m4 else ([], m4)
            let me := st4.1
            let m5 := st4.2
            if m5.errors ≠ 0 then preW ++ preE ++ s1 ++ s2 ++ basic ++ g ++ me
            else
              let st5 := propStage m5
              let pr := st5.1
              let m6 := st5.2
              let st6 := accStage m6
              let ac := st6.1
              let m7 := st6.2
              let st7 := if resolvedProduct then prodStage m7 else ([], m7)
              let pd := st7.1
              let m8 := st7.2
              if m8.errors ≠ 0 then preW ++ preE ++ s1 ++ s2 ++ basic ++ g ++ me ++ pr ++ ac ++ pd
              else
                let st8 := if mdtGiven then mdtStage m8 else ([], m8)
                let md := st8.1
                let m9 := st8.2
                let st9 := if thorough then dataStage m9 else ([], m9)
                let da := st9.1
                preW ++ preE ++ s1 ++ s2 ++ basic ++ g ++ me ++ pr ++ ac ++ pd ++ md ++ da

/-- The same stage sequence as `validate_dataset` with every
`if msg.errors: return` early exit removed: the messages of a run in which
every stage is attempted.  Used to state that warnings and infos do not
stop the pipeline. -/
def validate_dataset_all
    (thorough resolvedProduct mdtGiven allowExtraNonempty : Bool)
    (ctx0 : List (String × String))
    (docSchema : Option String)
    (schemaViolations : List (List String × String))
    (lineage : List (String × List String))
    (isUUID : String → Bool)
    (serialOk : Except String Unit)
    (productHref hasLocation : Bool)
    (requireGeometry hasMeasurements : Bool)
    (geoStage measStage propStage accStage prodStage mdtStage dataStage : Stage) :
    List VMessage :=
  let p := vdPre thorough resolvedProduct allowExtraNonempty ctx0
  let preW := p.1
  let preE := p.2.1
  let m1 := p.2.2
  let st1 := validateDsToSchema docSchema schemaViolations m1
  let s1 := st1.1
  let m2 := st1.2
  let st2 := validateLineage isUUID lineage m2
  let s2 := st2.1
  let m3 := st2.2
  match serialOk with
  | .error etext =>
      let (e, _) := m3.error ("serialisation_failure") (("Serialisation failed: ") ++ etext)
      preW ++ preE ++ s1 ++ s2 ++ [e]
  | .ok _ =>
      let basic : List VMessage :=
        (if productHref then [] else [m3.info ("product_href") ("A url href is recommended for products")]) ++
        (if hasLocation then [m3.warning ("dataset_location") ("Location is deprecated, use locations instead")] else [])
      let st3 := geoStage m3
      let g := st3.1
      let m4 := st3.2
      let st4 := if requireGeometry && hasMeasurements then measStage m4 else ([], m4)
      let me := st4.1
      let m5 := st4.2
      let st5 := propStage m5
      let pr := st5.1
      let m6 := st5.2
      let st6 := accStage m6
      let ac := st6.1
      let m7 := st6.2
      let st7 := if resolvedProduct then prodStage m7 else ([], m7)
      let pd := st7.1
      let m8 := st7.2
      let st8 := if mdtGiven then mdtStage m8 else ([], m8)
      let md := st8.1
      let m9 := st8.2
      let st9 := if thorough then dataStage m9 else ([], m9)
      let da := st9.1
      preW ++ preE ++ s1 ++ s2 ++ basic ++ g ++ me ++ pr ++ ac ++ pd ++ md ++ da

/-! ## Nodata / dtype numerics (`eo3/product/validate.py`,
`numpy_value_fits_dtype`, and `eo3/utils/utils.py`, `_is_nan`)

The Python function is

```
dtype = np.dtype(dtype)
if _is_nan(value):
    return np.issubdtype(dtype, np.floating)
else:
    return np.all(np.array([value]).astype(dtype) == [value])
```

We embed it exactly over the values that occur in parsed metadata
documents: the float `NaN`, the string literal `NaN`, arbitrary-precision
integers (placed by numpy in an `int64` array), and binary64 floats
(written `m·2ᵉ`).  `astype` to an integer dtype is a C-style cast
(truncation toward zero, then wrap-around modulo the width); `astype` to a
floating dtype rounds to nearest, ties to even; the final `==` comparison
is performed in the *promoted* dtype of the two arrays
(`int64`/`float32` → `float64`, `int64`/`float64` → `float64`,
`float64`/`float32` → `float64`), so both sides are rounded to binary64
before being compared.  For each branch below we use exact integer/rational
arithmetic equivalents of that pipeline; conversion of a value to a binary
floating grid round-trips exactly when the value lies on the grid.
-/

inductive NpDtype where
  | uint8
  | int16
  | int32
  | int64
  | float32
  | float64
  deriving DecidableEq, Repr

/-- `np.issubdtype(dtype, np.floating)`. -/
def NpDtype.isFloating : NpDtype → Bool
  | .float32 => true
  | .float64 => true
  | _ => false

def NpDtype.width : NpDtype → Nat
  | .uint8 => 8
  | .int16 => 16
  | .int32 => 32
  | .int64 => 64
  | _ => 0

def NpDtype.lo : NpDtype → Int
  | .uint8 => 0
  | .int16 => -(2 ^ 15)
  | .int32 => -(2 ^ 31)
  | .int64 => -(2 ^ 63)
  | _ => 0

def NpDtype.hi : NpDtype → Int
  | .uint8 => 2 ^ 8 - 1
  | .int16 => 2 ^ 15 - 1
  | .int32 => 2 ^ 31 - 1
  | .int64 => 2 ^ 63 - 1
  | _ => 0

/-- C-style integer cast: wrap `n` into the dtype range modulo `2 ^ width`. -/
def wrapInt (d : NpDtype) (n : Int) : Int :=
  (n - d.lo) % (2 ^ d.width : Int) + d.lo

/-- A `nodata` value as it appears in a parsed document: float NaN, the
string `NaN` (the JSON serialisation of NaN), an integer, or a binary64
float written as `m·2ᵉ`. -/
inductive NodataVal where
  | nanF
  | nanS
  | intV (n : Int)
  | floatV (m : Int) (e : Int)
  deriving DecidableEq, Repr

/-- Embeds `_is_nan(v)` from `eo3/utils/utils.py`: a string is NaN iff it
is the literal `NaN`; otherwise NaN-ness of a float. -/
def isNanVal : NodataVal → Bool
  | .nanF => true
  | .nanS => true
  | _ => false

/-- 2-adic valuation of a natural number (0 at 0), with a structural fuel
so that it evaluates by kernel reduction. -/
def twoValGo : Nat → Nat → Nat
  | 0, _ => 0
  | fuel + 1, n => if n % 2 == 0 && n != 0 then twoValGo fuel (n / 2) + 1 else 0

def twoVal (n : Nat) : Nat := twoValGo n n

/-- The rational value `m·2ᵉ`. -/
def valQ (m e : Int) : ℚ := (m : ℚ) * 2 ^ e

/-- Round an integer to a multiple of `2 ^ k`, nearest, ties to the even
multiple (the IEEE-754 default rounding used by numpy casts). -/
def rhe (k : Nat) (n : Int) : Int :=
  let d : Int := 2 ^ k
  let q := Int.fdiv n d
  let r := n - q * d
  let q2 :=
    if 2 * r < d then q
    else if d < 2 * r then q + 1
    else if q % 2 = 0 then q else q + 1
  q2 * d

/-- Floor base-2 logarithm with a structural fuel so that it evaluates by
kernel reduction (it agrees with `Nat.log 2`). -/
def log2F : Nat → Nat → Nat
  | 0, _ => 0
  | fuel + 1, n => if n < 2 then 0 else log2F fuel (n / 2) + 1

def nlog2 (n : Nat) : Nat := log2F n n

/-- Round an integer to `p` significant bits, nearest, ties to even: the
exact value of casting the integer to a binary float with a `p`-bit
mantissa (no overflow occurs for the 64-bit integers cast here). -/
def roundSig (p : Nat) (n : Int) : Int :=
  if n.natAbs < 2 ^ p then n else rhe (nlog2 n.natAbs + 1 - p) n

/-- The integer equal to `m·2ᵉ`, if that value is an integer.  (Embeds the
observable effect of the float → integer C cast followed by the promoted
comparison: a float compares equal to its cast iff it is an in-range
integer, see `numpy_value_fits_dtype`.) -/
def toIntQ (m e : Int) : Option Int :=
  if 0 ≤ e then some (m * 2 ^ e.toNat)
  else if m % (2 ^ (-e).toNat : Int) = 0 then some (m / (2 ^ (-e).toNat : Int))
  else none

/-- `|m·2ᵉ| < 2 ^ b`, computed in integer arithmetic. -/
def magLtB (m : Int) (e : Int) (b : Nat) : Bool :=
  if 0 ≤ e then m.natAbs * 2 ^ e.toNat < 2 ^ b
  else decide (m.natAbs < 2 ^ (b + (-e).toNat))

/-- Membership of the binary64 value `m·2ᵉ` in the binary32 value grid
(24-bit mantissa, subnormals down to `2 ^ (-149)`, magnitude below
`2 ^ 128`), computed on the integers: the binary64 → binary32 cast leaves
the value unchanged, and the promoted comparison then succeeds, exactly on
this grid. -/
def fitsF32pair (m e : Int) : Bool :=
  if m = 0 then true
  else
    let v := twoVal m.natAbs
    let m2 := m.natAbs / 2 ^ v
    decide (m2 < 2 ^ 24) && decide (-149 ≤ e + (v : Int)) && magLtB m e 128

/-- Embeds `numpy_value_fits_dtype(value, dtype)` from
`eo3/product/validate.py` under the exact cast/compare semantics described
at the head of this section:

* NaN values (float NaN or the string `NaN`): fit iff the dtype is
  floating;
* integer value, integer dtype: the wrapped cast must round-trip;
* integer value, `float32` dtype: the value is cast to binary32
  (`roundSig 24`), then both sides of `==` are promoted from
  `int64`/`float32` to binary64 (`roundSig 53`) and compared;
* integer value, `float64` dtype: both sides of `==` are the binary64 cast
  of the value, so they are always equal;
* float value, integer dtype: the cast truncates and wraps, and the
  promoted binary64 comparison then succeeds iff the value is an in-range
  integer;
* float value, `float32` dtype: the cast round-trips iff the value lies on
  the binary32 grid;
* float value, `float64` dtype: the cast is the identity on binary64
  values. -/
def numpy_value_fits_dtype (v : NodataVal) (d : NpDtype) : Bool :=
  if isNanVal v then d.isFloating
  else
    match v, d with
    | .intV n, .float32 => roundSig 53 (roundSig 24 n) == roundSig 53 n
    | .intV n, .float64 => roundSig 53 n == roundSig 53 n
    | .intV n, d => wrapInt d n == n
    | .floatV m e, .float32 => fitsF32pair m e
    | .floatV _ _, .float64 => true
    | .floatV m e, d =>
        match toIntQ m e with
        | some z => decide (d.lo ≤ z ∧ z ≤ d.hi)
        | none => false
    | .nanF, _ => false
    | .nanS, _ => false

/-- The claim side: a rational lies on the binary floating grid with a
`prec`-bit mantissa and minimal exponent `emin`. -/
def repFloat (prec : Nat) (emin : Int) (q : ℚ) : Prop :=
  ∃ m e : Int, q = (m : ℚ) * 2 ^ e ∧ m.natAbs < 2 ^ prec ∧ emin ≤ e

/-- The claim side: a rational is exactly representable as a finite binary
float with a `prec`-bit mantissa, minimal exponent `emin` and maximal
exponent `emax`. -/
def repFin (prec : Nat) (emin emax : Int) (q : ℚ) : Prop :=
  repFloat prec emin q ∧ |q| < (2 : ℚ) ^ (emax + 1)

/-- The claim side: a rational value is exactly representable in a numpy
dtype (an in-range integer for the integer dtypes, a finite binary32 /
binary64 value for the floating dtypes). -/
def exactRepQ (q : ℚ) : NpDtype → Prop
  | .float32 => repFin 24 (-149) 127 q
  | .float64 => repFin 53 (-1074) 1023 q
  | d => ∃ z : Int, (z : ℚ) = q ∧ d.lo ≤ z ∧ z ≤ d.hi

/-- The claim side, for a nodata value: NaN is representable exactly in the
floating dtypes; a numeric value must be exactly representable in the
dtype. -/
def exactRep : NodataVal → NpDtype → Prop
  | .nanF, d => d.isFloating = true
  | .nanS, d => d.isFloating = true
  | .intV n, d => exactRepQ (n : ℚ) d
  | .floatV m e, d => exactRepQ (valQ m e) d

/-! ## Product validation (`eo3/product/validate.py`)

Messages in this module are built with the plain `ValidationMessage`
classmethods (no messager, no context).
-/

def pmsgE (code reason : String) : VMessage := ⟨Level.error, code, reason, none, []⟩

def pmsgEH (code reason hint : String) : VMessage := ⟨Level.error, code, reason, some hint, []⟩

def pmsgW (code reason : String) : VMessage := ⟨Level.warning, code, reason, none, []⟩

def pmsgWH (code reason hint : String) : VMessage := ⟨Level.warning, code, reason, some hint, []⟩

def pmsgI (code reason : String) : VMessage := ⟨Level.info, code, reason, none, []⟩

/-- A spectral definition, abstracted to the presence and length of its
`wavelength` and `response` sequences (the validator looks at nothing
else). -/
structure SpecDef where
  wavelength : Option Nat
  response : Option Nat
  deriving DecidableEq, Repr

/-- Embeds `validate_spectral_definition(spec_def)`. -/
def validateSpectral (sd : SpecDef) : List VMessage :=
  match sd.wavelength, sd.response with
  | some wl, some rl =>
      if wl ≠ rl then
        [pmsgE ("mismatched_spectral_definition")
          ("Spectral definition wavelength and response sequence must have matched lengths")]
      else []
  | _, _ =>
      [pmsgE ("invalid_spectral_definition")
        ("Spectral definition must contain both a wavelength and response sequence")]

inductive BitsElem where
  | beInt (n : Int)
  | beOther
  deriving DecidableEq, Repr

/-- The `bits` field of a flag definition: a float, an integer, or a list. -/
inductive BitsVal where
  | bFloat
  | bInt (n : Int)
  | bList (l : List BitsElem)
  deriving DecidableEq, Repr

inductive FlagKey where
  | kInt (n : Int)
  | kOther
  deriving DecidableEq, Repr

inductive FlagVal where
  | vStrOrBool
  | vOther
  deriving DecidableEq, Repr

structure FlagDef where
  bits : BitsVal
  values : List (FlagKey × FlagVal)
  deriving DecidableEq, Repr

def nonIntegerBitsMsg : VMessage :=
  pmsgE ("non_integer_bits")
    ("Flag definition bits must be a positive integer, or a list of positive integers")

/-- The `for k, v in flag_def[values].items()` loop of
`validate_flags_definition`. -/
def flagValueMsgs (singlebit : Bool) (values : List (FlagKey × FlagVal)) : List VMessage :=
  values.flatMap fun kv =>
    (if singlebit then
      (match kv.1 with
       | .kInt 0 => []
       | .kInt 1 => []
       | _ => [pmsgE ("bad_bit_value_repr")
                ("Flag definition values keys must be 0 or 1 where a single bit is specified")])
    else
      (match kv.1 with
       | .kInt n =>
           if n < 0 then
             [pmsgE ("bad_bits_value_repr")
               ("Flag definition values keys must be a positive where a list of bits is specified")]
           else []
       | .kOther => [pmsgE ("bad_bits_value_repr")
                ("Flag definition values keys must be a positive where a list of bits is specified")])) ++
    (match kv.2 with
     | .vStrOrBool => []
     | .vOther => [pmsgE ("bad_flag_value")
              ("Flag definition values must be a string or a boolean")])

/-- Embeds `validate_flags_definition(flags)`. -/
def validateFlags (flags : List (String × FlagDef)) : List VMessage :=
  flags.flatMap fun nfd =>
    match nfd.2.bits with
    | .bFloat => [nonIntegerBitsMsg]
    | .bInt n =>
        if n < 0 then [nonIntegerBitsMsg]
        else flagValueMsgs true nfd.2.values
    | .bList l =>
        (l.flatMap fun b =>
          match b with
          | .beInt n => if n < 0 then [nonIntegerBitsMsg] else []
          | .beOther => [nonIntegerBitsMsg]) ++
        flagValueMsgs false nfd.2.values

/-- An `extra_dimensions` entry: name, coordinate dtype, coordinate
values. -/
structure ExtraDim where
  name : String
  dtype : NpDtype
  values : List NodataVal
  deriving DecidableEq, Repr

/-- Embeds `validate_extra_dimensions(extra_dimensions, prod_name,
extra_dims)`: threads the accumulated name → dimension table, skipping
duplicate names. -/
def validateExtraDims (prodName : String) :
    List ExtraDim → List (String × ExtraDim) → List VMessage × List (String × ExtraDim)
  | [], acc => ([], acc)
  | dim :: rest, acc =>
      if acc.any (fun p => p.1 == dim.name) then
        let (ms, acc2) := validateExtraDims prodName rest acc
        ((pmsgE ("duplicate_extra_dimension")
            (("Extra dimension ") ++ dim.name ++ (" is defined twice in product ") ++ prodName)) :: ms,
         acc2)
      else
        let here := dim.values.flatMap fun v =>
          if numpy_value_fits_dtype v dim.dtype then []
          else [pmsgE ("unsuitable_coords")
                 (("Extra dimension ") ++ dim.name ++ (" value does not fit"))]
        let (ms, acc2) := validateExtraDims prodName rest (acc ++ [(dim.name, dim)])
        (here ++ ms, acc2)

/-- Lexicographic string order by unicode code point (the order used by
Python `sorted` on strings), kernel-computable. -/
def strLeB (a b : String) : Bool :=
  go a.data b.data
where
  go : List Char → List Char → Bool
  | [], _ => true
  | _ :: _, [] => false
  | c :: cs, d :: ds =>
      if c.toNat < d.toNat then true
      else if d.toNat < c.toNat then false
      else go cs ds

/-- The adjacent-equal scan of `_find_duplicates` (the
`if v == previous: yield v` loop over the sorted values). -/
def adjDups : List String → List String
  | a :: b :: rest => (if a == b then [b] else []) ++ adjDups (b :: rest)
  | _ => []

/-- The proposition form of `strLeB`, the sort order of
`_find_duplicates`. -/
def strLeP (a b : String) : Prop := strLeB a b = true

instance : DecidableRel strLeP := fun a b => instDecidableEqBool (strLeB a b) true

/-- Embeds `_find_duplicates(values)`: sort, then yield every value equal
to its predecessor. -/
def findDuplicates (l : List String) : List String :=
  adjDups (l.insertionSort strLeP)

/-- A product measurement, with the fields read by
`validate_product_measurement`.  A single (non-list) `spectral_definition`
is embedded as a one-element list. -/
structure PMeasurement where
  name : String
  dtype : NpDtype
  nodata : NodataVal
  aliases : List String
  extraDim : Option String
  spectral : Option (List SpecDef)
  flags : Option (List (String × FlagDef))
  deriving Repr

/-- `collections.defaultdict(list)` read with default. -/
def seenGet (seen : List (String × List String)) (k : String) : List String :=
  (seen.lookup k).getD []

/-- `seen[k].append(v)` on the defaultdict. -/
def seenApp (seen : List (String × List String)) (k v : String) :
    List (String × List String) :=
  if seen.any (fun p => p.1 == k) then
    seen.map (fun p => if p.1 == k then (p.1, p.2 ++ [v]) else p)
  else seen ++ [(k, [v])]

def dupNameReason (n : String) : String :=
  ("Name ") ++ n ++ (" is used by multiple measurements")

/-- The duplicate-name error loop of `validate_product_measurement`
(`for new_field_name in these_names: ...`), run against the `seen` table
as it stood on entry. -/
def dupNameMsgs (mname : String) (seen : List (String × List String)) :
    List String → List VMessage
  | [] => []
  | n :: rest =>
      (if seenGet seen n ≠ [] then
        [pmsgEH ("duplicate_measurement_name") (dupNameReason n)
          (("Seen in measurement(s) ") ++ String.intercalate (" and ") (mname :: seenGet seen n))]
      else []) ++ dupNameMsgs mname seen rest

/-- Embeds `validate_product_measurement(measurement,
seen_names_and_aliases, extra_dims)`: yields messages and returns the
updated `seen` table. -/
def validate_product_measurement (m : PMeasurement)
    (seen : List (String × List String)) (extraDims : List (String × ExtraDim)) :
    List VMessage × List (String × List String) :=
  let theseNames := m.name :: m.aliases
  let nodataMsgs :=
    if numpy_value_fits_dtype m.nodata m.dtype then []
    else [pmsgE ("unsuitable_nodata")
           (("Measurement ") ++ m.name ++ (" nodata does not fit the dtype"))]
  let dupErrs := dupNameMsgs m.name seen theseNames
  let aliasDups := (findDuplicates theseNames).map fun d =>
    pmsgI ("duplicate_alias_name")
      (("Measurement ") ++ m.name ++ (" has a duplicate alias named ") ++ d)
  let seen2 := theseNames.foldl (fun s n => seenApp s n m.name) seen
  let extraMsgs :=
    match m.extraDim with
    | some ed =>
        match extraDims.lookup ed with
        | none =>
            [pmsgEH ("unknown_extra_dimension")
              (("Measurement ") ++ m.name ++ (" references unknown extra dimension ") ++ ed)
              ("Extra dimensions must be defined in the extra_dimensions section")]
        | some dim =>
            match m.spectral with
            | some sds =>
                (if sds.length ≠ dim.values.length then
                  [pmsgEH ("bad_extradim_spectra")
                    (("Measurement ") ++ m.name ++ (" has spectral definition that does not match dimension coordinates"))
                    ("Extra dimension measurements should have one spectral definition per dimension coordinate value")]
                else []) ++ sds.flatMap validateSpectral
            | none => []
    | none =>
        match m.spectral with
        | some sds => sds.flatMap validateSpectral
        | none => []
  let flagMsgs :=
    match m.flags with
    | some f => validateFlags f
    | none => []
  (nodataMsgs ++ dupErrs ++ aliasDups ++ extraMsgs ++ flagMsgs, seen2)

/-- The `for measurement in measurements` loop of `validate_product`,
threading the `seen_names_and_aliases` table. -/
def runMeasurements (extraDims : List (String × ExtraDim)) :
    List PMeasurement → List (String × List String) → List VMessage
  | [], _ => []
  | m :: rest, seen =>
      let r := validate_product_measurement m seen extraDims
      r.1 ++ runMeasurements extraDims rest r.2

/-- One entry of the product `metadata` section: the `product` subsection
(its key/value pairs, values as strings), the `properties` subsection
(each key paired with whether its value is a nested mapping), or any other
key. -/
inductive MetaEntry where
  | productE (kvs : List (String × String))
  | propertiesE (kvs : List (String × Bool))
  | otherE (k : String)
  deriving Repr

/-- The `^[\w:]+$` test on a metadata property key. -/
def validMetaKeyB (k : String) : Bool :=
  !k.data.isEmpty && k.data.all (fun c => c.isAlphanum || c == '_' || c == ':')

/-- Embeds `validate_product_metadata(template, name)`. -/
def validateProductMetadata (tmpl : List MetaEntry) (name : String) : List VMessage :=
  tmpl.flatMap fun ent =>
    match ent with
    | .productE kvs =>
        kvs.flatMap fun pkv =>
          if pkv.1 == ("name" : String) then
            if pkv.2 ≠ name then
              [pmsgE ("product_name_mismatch")
                ("If specified, metadata product name must match the product name")]
            else
              [pmsgW ("product_name_metadata_deprecated")
                ("Specifying product name in the metadata section is deprecated")]
          else
            [pmsgE ("invalid_product_metadata")
              ("Only the name field is permitted in the metadata product section")]
    | .propertiesE kvs =>
        kvs.flatMap fun kv =>
          if kv.2 then
            [pmsgE ("nested_metadata") ("Nesting of metadata properties is not supported in EO3")]
          else if !validMetaKeyB kv.1 then
            [pmsgEH ("invalid_metadata_properties_key")
              (("Invalid metadata field name ") ++ kv.1)
              ("Metadata field names can only contain alphanumeric characters, underscores and colons")]
          else []
    | .otherE k =>
        [pmsgEH ("invalid_metadata_key")
          (("Invalid metadata subsection ") ++ k)
          ("Metadata section can only contain a properties subsection")]

/-- A numeric-or-other value of a `resolution` / `align` entry. -/
inductive NumOrOther where
  | numV (q : ℚ)
  | otherV
  deriving Repr

structure LoadSection where
  crs : Option String
  resolution : Option (List (String × NumOrOther))
  align : Option (List (String × NumOrOther))
  deriving Repr

structure StorageSection where
  sec : LoadSection
  tileSizePresent : Bool
  deriving Repr

structure ProductDoc where
  name : String
  license : Option String
  metadataTypeIsStr : Bool
  metadata : List MetaEntry
  extraDimensions : List ExtraDim
  load : Option LoadSection
  storage : Option StorageSection
  managed : Bool
  measurements : Option (List PMeasurement)
  deriving Repr

/-- The per-CRS-dimension message loops of `validate_load_hints`, given the
dimension names of the parsed CRS (CRS parsing is external, a
parameter). -/
def loadHintDimMsgs (sec : LoadSection) (dims : List String) : List VMessage :=
  (match sec.align with
   | some al =>
       dims.flatMap fun dn =>
         match al.lookup dn with
         | none => [pmsgEH ("invalid_align_dim")
             (("align does not have ") ++ dn ++ (" dimension in load hints"))
             ("Use the CRS coordinate names in align")]
         | some (.numV q) =>
             if q < 0 ∨ 1 < q then
               [pmsgWH ("unexpected_align_val")
                 (("align for ") ++ dn ++ (" dimension in outside range"))
                 ("Use a number between zero and one")]
             else []
         | some .otherV => [pmsgEH ("invalid_align_type")
             (("align for ") ++ dn ++ (" dimension in load hints is not a number"))
             ("Use a number between zero and one")]
   | none => []) ++
  (dims.flatMap fun dn =>
    match ((sec.resolution).getD []).lookup dn with
    | none => [pmsgEH ("invalid_resolution_dim")
        (("resolution does not have ") ++ dn ++ (" dimension in load hints"))
        ("Use the CRS coordinate names in resolution")]
    | some (.numV _) => []
    | some .otherV => [pmsgEH ("invalid_resolution_type")
        (("resolution for ") ++ dn ++ (" dimension in load hints is not a number"))
        ("Use a number in the CRS units")])

/-- Embeds `validate_load_hints(doc)`.  A `storage` section whose
`resolution` key is missing is embedded with an empty resolution table. -/
def validateLoadHints (crsDims : String → Option (List String)) (p : ProductDoc) :
    List VMessage :=
  let pre :=
    if p.storage.isSome ∧ p.load.isSome then
      [pmsgWH ("storage_and_load")
        (("Product ") ++ p.name ++ (" contains both storage and load sections"))
        ("Remove storage section")]
    else
      match p.storage with
      | some st =>
          [pmsgW ("storage_section")
            ("The storage section is deprecated")] ++
          (if st.sec.crs.isSome ∧ st.sec.resolution.isSome ∧ st.tileSizePresent then
            [pmsgW ("storage_tilesize")
              ("Tile size in the storage section is no longer supported and should be removed")]
          else [])
      | none => []
  let load : Option LoadSection :=
    if p.storage.isSome ∧ p.load.isSome then p.load
    else
      match p.storage with
      | some st => some st.sec
      | none => p.load
  pre ++
  (match load with
   | none => []
   | some sec =>
       match sec.crs with
       | none =>
           [pmsgEH ("storage_nocrs") ("No CRS provided in load hints")
             ("Add a CRS to the load section, or remove the load section")]
       | some c =>
           match crsDims c with
           | none =>
               [pmsgEH ("load_invalid_crs") ("CRS in load hints is not a valid CRS")
                 ("Use an EPSG code or WKT representation")]
           | some dims => loadHintDimMsgs sec dims)

/-- Embeds `validate_product(doc)`.  The external product-schema validator
output is a parameter (`schemaErrors`, pairs of violation path and
message); the `measurements`-is-not-a-list error branch is unrepresentable
in this typed embedding. -/
def validate_product (schemaErrors : List (List String × String))
    (crsDims : String → Option (List String)) (p : ProductDoc) : List VMessage :=
  let docErrs := schemaErrors.map fun pe =>
    pmsgE ("document_schema") ((String.intercalate ("." : String) pe.1) ++ (" ") ++ pe.2)
  if !docErrs.isEmpty then docErrs
  else
    let extras := validateExtraDims p.name p.extraDimensions []
    (if ((p.license.getD ("" : String)).trim == ("" : String)) then
      [pmsgWH ("no_license") (("Product ") ++ p.name ++ (" has no license field"))
        ("Eg. CC-BY-4.0 in SPDX format, various, or proprietary")]
    else []) ++
    (if !p.metadataTypeIsStr then
      [pmsgW ("embedded_metadata_type")
        ("Embedded metadata types are deprecated, please reference metadata type by name")]
    else []) ++
    validateProductMetadata p.metadata p.name ++
    extras.1 ++
    validateLoadHints crsDims p ++
    (if p.managed then
      [pmsgW ("ingested_product") ("Data ingestion and the managed flag are deprecated")]
    else []) ++
    (match p.measurements with
     | none => [pmsgW ("no_measurements") ("Products with no measurements are deprecated")]
     | some [] => [pmsgW ("no_measurements") ("Products with no measurements are deprecated")]
     | some ms => runMeasurements extras.2 ms [])

/-! ## Property normalisation (`eo3/properties.py`, `Eo3DictBase`)

`normalise_and_set` normalises a value through the known-properties table
and stores it, warning or raising on conflicting overrides.  Known-property
normalisers are external pure functions; they may raise `ValueError`, and
may return a pair of the normalised value and extra properties to set
recursively.  The wrapped `_props` dictionary and the warnings issued are
returned explicitly; an exception leaves the dictionary as mutated so
far.
-/

/-- A normaliser result: a plain normalised value, or a value together with
extra extracted properties (the `(value, extra_properties)` convention). -/
inductive NormOut where
  | plain (v : JVal)
  | withExtras (v : JVal) (extras : List (String × JVal))

/-- A known-property normaliser: may raise `ValueError` (the `.error`
case). -/
def NormFn : Type := JVal → Except String NormOut

inductive PWarnKind where
  | unknownProperty
  | propertyOverride
  deriving DecidableEq, Repr

structure PWarning where
  kind : PWarnKind
  text : String
  deriving DecidableEq, Repr

inductive PErr where
  | valueError (s : String)
  | keyError (s : String)
  | runtimeError (s : String)
  deriving DecidableEq, Repr

/-- `d[k] = v` on an association-list dictionary: replace in place, else
append. -/
def setEnt (props : List (String × JVal)) (k : String) (v : JVal) :
    List (String × JVal) :=
  if props.any (fun p => p.1 == k) then
    props.map (fun p => if p.1 == k then (p.1, v) else p)
  else props ++ [(k, v)]

/-- The `for k, v in extra_properties.items()` loop: set each extra
property through the given setter, threading the dictionary and the
warnings and aborting on the first exception. -/
def extrasFold (f : List (String × JVal) → String → JVal →
      List (String × JVal) × List PWarning × Option PErr) :
    List (String × JVal) → List (String × JVal) →
      List (String × JVal) × List PWarning × Option PErr
  | props, [] => (props, [], none)
  | props, (k, v) :: rest =>
      let r := f props k v
      match r.2.2 with
      | some e => (r.1, r.2.1, some e)
      | none =>
          let r2 := extrasFold f r.1 rest
          (r2.1, r.2.1 ++ r2.2.1, r2.2.2)

/-- Embeds `Eo3DictBase.normalise_and_set(key, value, allow_override,
expect_override)`.  `known` is the `KNOWN_PROPERTIES` table (a key may be
present with no normaliser).  The `fuel` bounds the recursion through
extra properties (the Python code recurses unboundedly; any fuel larger
than the extra-property nesting depth gives the Python behaviour).
Returns the dictionary as left by the call, the warnings issued, and the
exception raised if any. -/
def normalise_and_set (known : List (String × Option NormFn)) :
    Nat → List (String × JVal) → String → JVal → Bool → Bool →
      List (String × JVal) × List PWarning × Option PErr
  | 0, props, _, _, _, _ => (props, [], some (.runtimeError ("recursion limit")))
  | Nat.succ fuel, props, key, value, allowOverride, expectOverride =>
      let unknownW : List PWarning :=
        if known.any (fun p => p.1 == key) then []
        else [⟨.unknownProperty, ("Unknown Stac property ") ++ key⟩]
      let normStep :
          List (String × JVal) × List PWarning × Option PErr ⊕ (JVal × List (String × JVal) × List PWarning) :=
        if value == JVal.nullV then .inr (value, props, [])
        else
          match ((known.lookup key).getD none) with
          | none => .inr (value, props, [])
          | some nf =>
              match nf value with
              | .error e => .inl (props, [], some (.valueError e))
              | .ok (.plain v2) => .inr (v2, props, [])
              | .ok (.withExtras v2 extras) =>
                  if extras.any (fun p => p.1 == key) then
                    .inl (props, [], some (.runtimeError ("Infinite loop: writing key from itself")))
                  else
                    let r := extrasFold
                      (fun pr k v => normalise_and_set known fuel pr k v allowOverride false)
                      props extras
                    match r.2.2 with
                    | some e => .inl (r.1, r.2.1, some e)
                    | none => .inr (v2, r.1, r.2.1)
      match normStep with
      | .inl aborted => (aborted.1, unknownW ++ aborted.2.1, aborted.2.2)
      | .inr (v2, props2, extraW) =>
          let conflict :=
            match entLookup key props2 with
            | some old => !(v2 == old) && !expectOverride
            | none => false
          if conflict then
            if allowOverride then
              (setEnt props2 key v2,
               unknownW ++ extraW ++ [⟨.propertyOverride, ("Overriding property ") ++ key⟩],
               none)
            else (props2, unknownW ++ extraW, some (.keyError (("Overriding property ") ++ key)))
          else (setEnt props2 key v2, unknownW ++ extraW, none)

/-! ## The `DatasetMetadata` accessor (`eo3/model.py`)

The accessor owns a document plus replaceable metadata-type and product
definitions, and interpreter tables (search fields, system fields,
combined offsets) derived from the metadata type.  Attribute access is
dispatched through these tables.  Value converters and the value ordering
used by range collapse are external parameters (`conv`, `jlt`).
-/

inductive ConvKind where
  | strC
  | doubleC
  | intC
  | numericC
  | datetimeC
  | objectC
  deriving DecidableEq, Repr

/-- A field descriptor as stored in the interpreter tables: a scalar field
with one offset, or a range field with min/max offset lists. -/
inductive FieldD where
  | simpleF (offset : List String) (ck : ConvKind)
  | rangeF (minOff maxOff : List (List String)) (ck : ConvKind)
  deriving DecidableEq, Repr

/-- A resolved field value: a converted scalar, or a collapsed
`Range(begin, end)`. -/
inductive FieldVal where
  | scalarV (v : JVal)
  | rangeV (lo hi : Option JVal)

/-- Python `min` over a non-empty list under a strict-less comparison:
keep the first minimal element. -/
def listMinBy (jlt : JVal → JVal → Bool) : List JVal → Option JVal
  | [] => none
  | x :: xs => some (xs.foldl (fun acc v => if jlt v acc then v else acc) x)

def listMaxBy (jlt : JVal → JVal → Bool) : List JVal → Option JVal
  | [] => none
  | x :: xs => some (xs.foldl (fun acc v => if jlt acc v then v else acc) x)

/-- Field extraction (`SimpleField.extract` / `RangeField.extract`) against
a document, through external converters; `.error` is a converter
exception. -/
def extractFd (conv : ConvKind → JVal → Option JVal) (jlt : JVal → JVal → Bool)
    (fd : FieldD) (doc : JVal) : Except Unit (Option FieldVal) :=
  match fd with
  | .simpleF off ck =>
      match getIn off doc with
      | none => .ok none
      | some raw =>
          match conv ck raw with
          | some w => .ok (some (.scalarV w))
          | none => .error ()
  | .rangeF mins maxs ck =>
      match ((mins.map (fun p => getIn p doc)).reduceOption).mapM (conv ck),
            ((maxs.map (fun p => getIn p doc)).reduceOption).mapM (conv ck) with
      | some cmins, some cmaxs =>
          let vmin := listMinBy jlt cmins
          let vmax := listMaxBy jlt cmaxs
          if vmin.isNone && vmax.isNone then .ok none
          else .ok (some (.rangeV vmin vmax))
      | _, _ => .error ()

/-- The interpreter tables built from a metadata-type definition
(`get_search_fields`, `get_system_fields`, `all_field_offsets`). -/
structure Tables where
  searchFields : List (String × FieldD)
  systemFields : List (String × FieldD)
  allOffsets : List (String × List (List String))

/-- The state of a `DatasetMetadata` instance. -/
structure DsState where
  doc : JVal
  mdt : JVal
  productDef : Option JVal
  searchFields : List (String × FieldD)
  systemFields : List (String × FieldD)
  allOffsets : List (String × List (List String))
  msgContext : List (String × String)

/-- The `fields` view: `dict(**self.system_fields, **self.search_fields)`,
every field resolved live against the current document; a converter
exception propagates. -/
def fieldsMap (conv : ConvKind → JVal → Option JVal) (jlt : JVal → JVal → Bool)
    (s : DsState) : Except Unit (List (String × Option FieldVal)) :=
  (s.systemFields ++ s.searchFields).mapM fun nfd =>
    match extractFd conv jlt nfd.2 s.doc with
    | .ok v => .ok (nfd.1, v)
    | .error u => .error u

/-- Properties with a setter on the `DatasetMetadata` class. -/
def settableProps : List String := [("metadata_type" : String), ("product_definition" : String)]

/-- Read-only properties of the class (data descriptors without a
setter). -/
def readonlyProps : List String :=
  [("doc" : String), ("search_fields" : String), ("system_fields" : String), ("fields" : String),
   ("properties" : String), ("locations" : String), ("product" : String), ("geometry" : String),
   ("grids" : String), ("measurements" : String), ("accessories" : String), ("crs" : String),
   ("extent" : String)]

/-- Plain methods and per-instance slots: found by ordinary attribute
lookup, and writable through `object.__setattr__`. -/
def plainAttrs : List String :=
  [("without_lineage" : String), ("normalise" : String), ("validate_to_product" : String),
   ("validate_to_schema" : String), ("validate_to_mdtype" : String),
   ("validate_measurements" : String), ("validate_base" : String), ("from_path" : String),
   ("_doc" : String), ("_normalisers" : String), ("_mdt_definition" : String),
   ("_product_definition" : String), ("_search_fields" : String), ("_system_offsets" : String),
   ("_all_offsets" : String), ("_msg" : String)]

/-- Every attribute name that ordinary (pre-`__getattr__`) lookup finds on
a `DatasetMetadata` instance. -/
def normalAttrs : List String := settableProps ++ readonlyProps ++ plainAttrs

/-- The outcome of reading `ds.<name>`. -/
inductive GetResult where
  | classAttr
  | fieldVal (v : Option FieldVal)
  | attrError (name : String) (valid : List String)
  | convError

/-- Embeds attribute read on `DatasetMetadata`: ordinary lookup first
(class properties, methods, instance slots); only then `__getattr__`,
which consults the live `fields` view and raises an `AttributeError`
naming the field and the valid field names when the name is unknown. -/
def get_attr (conv : ConvKind → JVal → Option JVal) (jlt : JVal → JVal → Bool)
    (s : DsState) (name : String) : GetResult :=
  if name ∈ normalAttrs then .classAttr
  else
    match fieldsMap conv jlt s with
    | .error _ => .convError
    | .ok fs =>
        match fs.lookup name with
        | some v => .fieldVal v
        | none => .attrError name (fs.map (fun p => p.1))

/-- A value passed to attribute write: a plain value or a
`Range(begin, end)`. -/
inductive SetVal where
  | single (v : JVal)
  | rangeSet (b e : JVal)

/-- A `Range` stored as a document value is a 2-sequence. -/
def SetVal.enc : SetVal → JVal
  | .single v => v
  | .rangeSet b e => .arrV [b, e]

/-- The outcome of writing `ds.<name> = val`. -/
inductive SetResult where
  | updatedDoc (doc : JVal)
  | typeErr (name : String)
  | propertySetterCall (name : String)
  | readonlySetError
  | instanceSet (name : String)
  | normaliseKeyTypeError
  | convError
  | unknownFieldError (name : String) (valid : List String)

/-- Embeds `toolz.assoc_in(doc, path, value)`: copy-on-write update along
a key path, creating nested mappings as needed. -/
def assocIn : List String → JVal → JVal → JVal
  | [], v, _ => v
  | k :: ks, v, .dictV es =>
      .dictV (setEnt es k (assocIn ks v ((entLookup k es).getD (.dictV []))))
  | k :: ks, v, _ => .dictV (setEnt [] k (assocIn ks v (.dictV [])))

/-- Embeds `DatasetMetadata.normalise(key, val)` for a string key:
apply the configured normaliser if there is one. -/
def dsNormaliseK (nf : String → Option (JVal → JVal)) (key : String) (v : JVal) : JVal :=
  match nf key with
  | some f => f v
  | none => v

/-- Embeds `DatasetMetadata.normalise(key, val)` for an offset key: only an
offset starting at `properties` is looked up (by its second component);
any other offset key is unhashable and raises `TypeError` (`none`
here). -/
def dsNormaliseOff (nf : String → Option (JVal → JVal)) (off : List String) (v : JVal) :
    Option JVal :=
  match off with
  | ("properties" : String) :: k :: _ => some (dsNormaliseK nf k v)
  | _ => none

/-- Embeds attribute write on `DatasetMetadata` (`__setattr__`): dispatch
on the combined offset table; a name without an offset falls back to the
property setter, to ordinary attribute write, or to an `AttributeError`
naming the field and the valid names. -/
def set_attr (conv : ConvKind → JVal → Option JVal) (jlt : JVal → JVal → Bool)
    (nf : String → Option (JVal → JVal)) (s : DsState) (name : String) (val : SetVal) :
    SetResult :=
  match s.allOffsets.lookup name with
  | some offsets =>
      if offsets.length > 1 then
        if name == ("time" : String) then
          match val with
          | .rangeSet b e =>
              .updatedDoc (assocIn [("properties" : String), ("dtr:end_datetime" : String)]
                (dsNormaliseK nf ("dtr:end_datetime") e)
                (assocIn [("properties" : String), ("dtr:start_datetime" : String)]
                  (dsNormaliseK nf ("dtr:start_datetime") b) s.doc))
          | .single v =>
              .updatedDoc (assocIn [("properties" : String), ("datetime" : String)]
                (dsNormaliseK nf ("datetime") v) s.doc)
        else
          match val with
          | .single _ => .typeErr name
          | .rangeSet b e =>
              match offsets with
              | o1 :: o2 :: _ =>
                  match dsNormaliseOff nf o1 b, dsNormaliseOff nf o1 e with
                  | some nb, some ne =>
                      .updatedDoc (assocIn o2 ne (assocIn o1 nb s.doc))
                  | _, _ => .normaliseKeyTypeError
              | _ => .normaliseKeyTypeError
      else
        match offsets with
        | [o1] =>
            match dsNormaliseOff nf o1 val.enc with
            | some nv => .updatedDoc (assocIn o1 nv s.doc)
            | none => .normaliseKeyTypeError
        | _ => .updatedDoc s.doc
  | none =>
      if name ∈ settableProps then .propertySetterCall name
      else if name ∈ readonlyProps then .readonlySetError
      else if name ∈ plainAttrs then .instanceSet name
      else
        match fieldsMap conv jlt s with
        | .error _ => .convError
        | .ok fs =>
            if fs.any (fun p => p.1 == name) then .instanceSet name
            else .unknownFieldError name (s.allOffsets.map (fun p => p.1))

/-! ## Definition replacement on `DatasetMetadata`
(`metadata_type` / `product_definition` setters)

`handle_validation_messages` and `handle_ds_validation_messages` are
referenced by `eo3/model.py` but their definitions are not part of the
sources provided; they are modelled from the spec.  The two validators a
setter runs (`validate_metadata_type` and the dataset-level revalidation)
are parameters, as is the table parser.
-/

/-- Modelled from the spec: `handle_validation_messages` /
`handle_ds_validation_messages` batch all error-level messages of a
validation run into one raised exception carrying the newline-joined text
of every error (and batch warnings into one `UserWarning`).  This gives
the raised text: `none` when there is no error-level message. -/
def errorTextOf (msgs : List VMessage) : Option String :=
  if countErrors msgs = 0 then none
  else some (String.intercalate ("\n" : String)
    ((msgs.filter (fun v => v.level == Level.error)).map (fun v => v.reason)))

inductive DsError where
  | invalidDoc (s : String)
  | invalidDataset (s : String)
  | parseError (s : String)

/-- `doc.get("name")` rendered for messager context. -/
def nameOf (v : JVal) : String :=
  match v with
  | .dictV es =>
      match entLookup ("name") es with
      | some (.strV s) => s
      | _ => ("" : String)
  | _ => ("" : String)

/-- Embeds the `metadata_type` setter: validate the definition document
itself (`vmt`), revalidate the current document against it (`vdsm`), and
only then rebuild and install the interpreter tables.  Returns the state
of the instance after the call and the exception raised, if any. -/
def set_metadata_type (vmt : JVal → List VMessage) (vdsm : JVal → JVal → List VMessage)
    (parse : JVal → Except String Tables) (s : DsState) (val : JVal) :
    DsState × Option DsError :=
  match errorTextOf (vmt val) with
  | some e => (s, some (.invalidDoc e))
  | none =>
      match errorTextOf (vdsm s.doc val) with
      | some e => (s, some (.invalidDataset e))
      | none =>
          match parse val with
          | .error e => ({ s with mdt := val }, some (.parseError e))
          | .ok t =>
              ({ s with
                  mdt := val
                  searchFields := t.searchFields
                  systemFields := t.systemFields
                  allOffsets := t.allOffsets
                  msgContext := ctxSet s.msgContext ("type") (nameOf val) }, none)

/-- Embeds the `product_definition` setter: validate the product document
itself (`vp`, raising on errors), then validate the dataset against it
(`vdsp`); on dataset-incompatibility errors the product is not installed
and a non-fatal warning is issued instead.  Returns the state after the
call, the exception raised if any, and the warning issued if any. -/
def set_product_definition (vp : JVal → List VMessage)
    (vdsp : JVal → JVal → List VMessage) (s : DsState) (val : Option JVal) :
    DsState × Option DsError × Option String :=
  match val with
  | none => ({ s with productDef := none }, none, none)
  | some v =>
      match errorTextOf (vp v) with
      | some e => (s, some (.invalidDoc e), none)
      | none =>
          let s1 := { s with msgContext := ctxSet s.msgContext ("product") (nameOf v) }
          match errorTextOf (vdsp s1.doc v) with
          | some e =>
              (s1, none,
               some (("Cannot update product definition as it is incompatible with the dataset and would cause the following issues: ") ++ e))
          | none => ({ s1 with productDef := some v }, none, none)

/-! ## Helper definitions used to state the theorems -/

/-- The value that the normalisation step of `normalise_and_set` stores for
`key`, when that step neither raises nor extracts extra properties:
`None` values and keys without a normaliser pass through unchanged,
otherwise the normaliser must return a plain value. -/
def normOutcome (known : List (String × Option NormFn)) (key : String) (value : JVal) :
    Option JVal :=
  if value == JVal.nullV then some value
  else
    match (known.lookup key).getD none with
    | none => some value
    | some nf =>
        match nf value with
        | .ok (.plain v2) => some v2
        | _ => none

/-- The name and aliases of a product measurement (`these_names`). -/
def namesOf (m : PMeasurement) : List String := m.name :: m.aliases

/-- The `seen_names_and_aliases` table after processing a list of
measurements. -/
def seenAfter : List PMeasurement → List (String × List String) →
    List (String × List String)
  | [], seen => seen
  | m :: rest, seen =>
      seenAfter rest ((namesOf m).foldl (fun s n => seenApp s n m.name) seen)

/-- A concrete measurement named blue, with no aliases. -/
def mW9a : PMeasurement :=
  ⟨("blue"), NpDtype.int16, NodataVal.intV 0, [], none, none, none⟩

/-- A concrete measurement named red, with blue as an alias. -/
def mW9b : PMeasurement :=
  ⟨("red"), NpDtype.int16, NodataVal.intV 0, [("blue")], none, none, none⟩

/-- A concrete product document holding the two measurements above. -/
def pW9 : ProductDoc :=
  ⟨("test_product"), some ("CC-BY-4.0"), true, [], [], none, none, false,
    some [mW9a, mW9b]⟩

/-! # Theorems -/

/-! ## Shared helper lemmas -/

theorem countErrors_nil : countErrors [] = 0 := rfl

theorem countErrors_append (a b : List VMessage) :
    countErrors (a ++ b) = countErrors a + countErrors b := by
  simp [countErrors, List.filter_append]

theorem countErrors_cons (v : VMessage) (l : List VMessage) :
    countErrors (v :: l) = (if v.level = Level.error then 1 else 0) + countErrors l := by
  by_cases h : v.level = Level.error <;> simp [countErrors, h, Nat.add_comm]

theorem countErrors_cons_error (code reason : String) (h : Option String)
    (ctx : List (String × String)) (l : List VMessage) :
    countErrors (⟨Level.error, code, reason, h, ctx⟩ :: l) = countErrors l + 1 := by
  simp [countErrors, Nat.add_comm]

theorem countErrors_eq_zero_iff (l : List VMessage) :
    countErrors l = 0 ↔ ∀ v ∈ l, v.level ≠ Level.error := by
  simp [countErrors, List.filter_eq_nil_iff]

/-- `containsEntries` is the universally-quantified per-key superset
check. -/
theorem containsEntries_iff (cs : Bool) (es1 es2 : List (String × JVal)) :
    containsEntries cs es1 es2 = true ↔
      ∀ kv ∈ es2, ∃ w, entLookup kv.1 es1 = some w ∧ containsFn cs w kv.2 = true := by
  induction es2 with
  | nil => simp [containsEntries]
  | cons kv rest ih =>
      obtain ⟨k, v⟩ := kv
      simp only [containsEntries, Bool.and_eq_true, ih, List.mem_cons]
      constructor
      · rintro ⟨h1, h2⟩ p hp
        rcases hp with hp | hp
        · subst hp
          cases hop : entLookup k es1 with
          | none => rw [hop] at h1; simp at h1
          | some w =>
              rw [hop] at h1
              exact ⟨w, rfl, h1⟩
        · exact h2 p hp
      · intro h
        constructor
        · obtain ⟨w, hw1, hw2⟩ := h (k, v) (Or.inl rfl)
          rw [hw1]; exact hw2
        · exact fun p hp => h p (Or.inr hp)

/-! ## Claim C2: range-field extraction collapse -/

/-- Claim C2: for every range field and document, `RangeField.extract`
returns `None` when no value resolves on either side; a `Range` populated
only on the side where values resolve when exactly one side resolves; and
`Range(min(mins), max(maxs))` otherwise.  In particular, min-candidates
`{5, 7}` and max-candidates `{10, 20}` collapse to `Range(5, 20)`. -/
theorem claim_C2 :
    (∀ {α : Type} [inst : LinearOrder α] (conv : JVal → α)
        (minOff maxOff : List (List String)) (doc : JVal),
      (extractRaw conv minOff doc = [] → extractRaw conv maxOff doc = [] →
        rangeFieldExtract conv minOff maxOff doc = none) ∧
      (extractRaw conv minOff doc ≠ [] → extractRaw conv maxOff doc = [] →
        rangeFieldExtract conv minOff maxOff doc =
          some ((extractRaw conv minOff doc).min?, none)) ∧
      (extractRaw conv minOff doc = [] → extractRaw conv maxOff doc ≠ [] →
        rangeFieldExtract conv minOff maxOff doc =
          some (none, (extractRaw conv maxOff doc).max?)) ∧
      (extractRaw conv minOff doc ≠ [] → extractRaw conv maxOff doc ≠ [] →
        rangeFieldExtract conv minOff maxOff doc =
          some ((extractRaw conv minOff doc).min?, (extractRaw conv maxOff doc).max?))) ∧
    rangeFieldExtract (fun v => match v with | .intV n => n | _ => (0 : Int))
      [[("a" : String)], [("b" : String)]] [[("c" : String)], [("d" : String)]]
      (.dictV [(("a" : String), .intV 5), (("b" : String), .intV 7),
               (("c" : String), .intV 10), (("d" : String), .intV 20)]) =
      some (some 5, some 20) := by
  constructor
  · intro α inst conv minOff maxOff doc
    refine ⟨?_, ?_, ?_, ?_⟩ <;> intro h1 h2
    · simp [rangeFieldExtract, h1, h2]
    · obtain ⟨x, xs, hx⟩ := List.exists_cons_of_ne_nil h1
      simp [rangeFieldExtract, hx, h2, List.min?_cons]
    · obtain ⟨x, xs, hx⟩ := List.exists_cons_of_ne_nil h2
      simp [rangeFieldExtract, hx, h1, List.max?_cons]
    · obtain ⟨x, xs, hx⟩ := List.exists_cons_of_ne_nil h1
      obtain ⟨y, ys, hy⟩ := List.exists_cons_of_ne_nil h2
      simp [rangeFieldExtract, hx, hy, List.min?_cons, List.max?_cons]
  · decide

/-- Witness for claim C2: the general collapse statement applied at the
concrete `{5,7}` / `{10,20}` document. -/
theorem claim_C2_witness :
    rangeFieldExtract (fun v => match v with | .intV n => n | _ => (0 : Int))
      [[("a" : String)], [("b" : String)]] [[("c" : String)], [("d" : String)]]
      (.dictV [(("a" : String), .intV 5), (("b" : String), .intV 7),
               (("c" : String), .intV 10), (("d" : String), .intV 20)]) =
      some ((extractRaw (fun v => match v with | .intV n => n | _ => (0 : Int))
              [[("a" : String)], [("b" : String)]]
              (.dictV [(("a" : String), .intV 5), (("b" : String), .intV 7),
                       (("c" : String), .intV 10), (("d" : String), .intV 20)])).min?,
            (extractRaw (fun v => match v with | .intV n => n | _ => (0 : Int))
              [[("c" : String)], [("d" : String)]]
              (.dictV [(("a" : String), .intV 5), (("b" : String), .intV 7),
                       (("c" : String), .intV 10), (("d" : String), .intV 20)])).max?) :=
  (claim_C2.1 _ _ _ _).2.2.2 (by decide) (by decide)

/-! ## Claim C6: the `contains` superset rule -/

/-- Claim C6: with default (case-insensitive) settings, `contains(v1, v2)`
holds for mappings iff `contains(v1[k], v2[k])` holds for every key of
`v2`; strings are compared case-insensitively; any other values must be
equal.  Concretely, a mapping contains its sub-mapping and differing
scalars are not contained. -/
theorem claim_C6 :
    (∀ (es1 es2 : List (String × JVal)),
      containsFn false (.dictV es1) (.dictV es2) = true ↔
        ∀ kv ∈ es2, ∃ w, entLookup kv.1 es1 = some w ∧ containsFn false w kv.2 = true) ∧
    (∀ (s1 : String) (v2 : JVal),
      containsFn false (.strV s1) v2 = true ↔
        ∃ s2, v2 = .strV s2 ∧ s1.toLower = s2.toLower) ∧
    (∀ (v1 v2 : JVal), (∀ s, v1 ≠ .strV s) → (∀ es, v1 ≠ .dictV es) →
      (containsFn false v1 v2 = true ↔ JVal.beq v1 v2 = true)) ∧
    containsFn false
      (.dictV [(("a" : String), .dictV [(("b" : String), .intV 1), (("c" : String), .intV 2)])])
      (.dictV [(("a" : String), .dictV [(("b" : String), .intV 1)])]) = true ∧
    containsFn false (.dictV [(("a" : String), .intV 1)])
      (.dictV [(("a" : String), .intV 2)]) = false := by
  refine ⟨?_, ?_, ?_, by decide, by decide⟩
  · intro es1 es2
    rw [show containsFn false (.dictV es1) (.dictV es2) = containsEntries false es1 es2 from rfl]
    exact containsEntries_iff false es1 es2
  · intro s1 v2
    cases v2 with
    | strV s2 =>
        simp only [containsFn, if_neg (by simp : ¬(false = true))]
        constructor
        · intro h
          exact ⟨s2, rfl, by simpa using h⟩
        · rintro ⟨s3, heq, hlow⟩
          cases heq
          simp [hlow]
    | nullV => simp [containsFn]
    | boolV b => simp [containsFn]
    | intV n => simp [containsFn]
    | arrV xs => simp [containsFn]
    | dictV es => simp [containsFn]
  · intro v1 v2 hs hd
    cases v1 with
    | strV s => exact absurd rfl (hs s)
    | dictV es => exact absurd rfl (hd es)
    | nullV => cases v2 <;> simp [containsFn, JVal.beq]
    | boolV b => cases v2 <;> simp [containsFn, JVal.beq]
    | intV n => cases v2 <;> simp [containsFn, JVal.beq]
    | arrV xs => cases v2 <;> simp [containsFn, JVal.beq]

/-- Witness for claim C6: the equal-values fallthrough applied at two
non-string non-mapping values. -/
theorem claim_C6_witness :
    containsFn false (.intV 1) (.intV 1) = true ↔ JVal.beq (.intV 1) (.intV 1) = true :=
  claim_C6.2.2.1 (.intV 1) (.intV 1) (fun s h => JVal.noConfusion h)
    (fun es h => JVal.noConfusion h)

/-! ## Claim C10: sub-messagers do not count into the parent error
counter -/

/-- Claim C10: `sub_msg` returns a messager whose context is the parent
context updated with the keyword arguments and whose error counter starts
at zero; an error created through the sub-messager is error-level but
counts only on the sub-messager; consequently `_validate_grids` returns
with the parent messager unchanged even when it yields grid-CRS
error-level messages, as in the concrete unparseable-grid-CRS run. -/
theorem claim_C10 :
    (∀ (m : Msgr) (kws : List (String × String)),
      (m.subMsg kws).context = ctxUpdate m.context kws ∧ (m.subMsg kws).errors = 0) ∧
    (∀ (m : Msgr) (kws : List (String × String)) (c r : String),
      ((m.subMsg kws).error c r).1.level = Level.error ∧
      ((m.subMsg kws).error c r).2.errors = 1) ∧
    (∀ (w : CrsWorld) (grids : List (String × Option String)) (m : Msgr),
      (validateGrids w grids m).2 = m) ∧
    (countErrors (validateGrids ⟨fun _ => false, fun _ => none⟩
        [(("g1" : String), some ("bogus"))] ⟨[], 0⟩).1 = 1 ∧
      (validateGrids ⟨fun _ => false, fun _ => none⟩
        [(("g1" : String), some ("bogus"))] ⟨[], 0⟩).2 = ⟨[], 0⟩) := by
  refine ⟨fun m kws => ⟨rfl, rfl⟩, fun m kws c r => ⟨rfl, rfl⟩, ?_, ?_, ?_⟩
  · intro w grids m
    induction grids with
    | nil => rfl
    | cons g rest ih => simp [validateGrids, ih]
  · decide
  · decide

/-! ## Claim C7: conflicting property writes warn or raise -/

/-- Claim C7: when `normalise_and_set(key, value)` is called with the key
already stored at a different value and `expect_override` false, it warns
with `PropertyOverrideWarning` (and stores) if `allow_override` is true,
and raises `KeyError` without storing the new value if `allow_override` is
false.  (`v2` is the value after the normalisation step, per
`normOutcome`.) -/
theorem claim_C7 (known : List (String × Option NormFn)) (fuel : Nat)
    (props : List (String × JVal)) (key : String) (value old v2 : JVal)
    (hold : entLookup key props = some old)
    (hnorm : normOutcome known key value = some v2)
    (hdiff : (v2 == old) = false) :
    ((normalise_and_set known (fuel + 1) props key value true false).1 = setEnt props key v2 ∧
      (∃ w ∈ (normalise_and_set known (fuel + 1) props key value true false).2.1,
        w.kind = PWarnKind.propertyOverride) ∧
      (normalise_and_set known (fuel + 1) props key value true false).2.2 = none) ∧
    ((normalise_and_set known (fuel + 1) props key value false false).1 = props ∧
      (normalise_and_set known (fuel + 1) props key value false false).2.2 =
        some (PErr.keyError (("Overriding property ") ++ key)) ∧
      entLookup key (normalise_and_set known (fuel + 1) props key value false false).1 =
        some old) := by
  have main : ∀ allow : Bool,
      normalise_and_set known (fuel + 1) props key value allow false =
        (if allow then
          (setEnt props key v2,
           (if known.any (fun p => p.1 == key) then [] else
             [⟨PWarnKind.unknownProperty, ("Unknown Stac property ") ++ key⟩]) ++
             [⟨PWarnKind.propertyOverride, ("Overriding property ") ++ key⟩], none)
        else
          (props,
           (if known.any (fun p => p.1 == key) then [] else
             [⟨PWarnKind.unknownProperty, ("Unknown Stac property ") ++ key⟩]),
           some (PErr.keyError (("Overriding property ") ++ key)))) := by
    intro allow
    unfold normOutcome at hnorm
    by_cases hv : (value == JVal.nullV) = true
    · rw [if_pos hv] at hnorm
      injection hnorm with hnorm
      subst hnorm
      simp [normalise_and_set, hv, hold, hdiff]
    · rw [if_neg hv] at hnorm
      cases hk : (known.lookup key).getD none with
      | none =>
          rw [hk] at hnorm
          injection hnorm with hnorm
          subst hnorm
          simp [normalise_and_set, hv, hk, hold, hdiff]
      | some nf =>
          simp only [hk] at hnorm
          cases hnf : nf value with
          | error e => simp only [hnf] at hnorm; exact absurd hnorm (by simp)
          | ok out =>
              cases out with
              | plain v3 =>
                  simp only [hnf, Option.some.injEq] at hnorm
                  subst hnorm
                  simp [normalise_and_set, hv, hk, hnf, hold, hdiff]
              | withExtras v3 extras =>
                  simp only [hnf] at hnorm
                  exact absurd hnorm (by simp)
  constructor
  · rw [main true, if_pos rfl]
    refine ⟨rfl, ⟨⟨PWarnKind.propertyOverride, ("Overriding property ") ++ key⟩, ?_, rfl⟩, rfl⟩
    simp
  · rw [main false, if_neg (by simp)]
    exact ⟨rfl, rfl, hold⟩

/-- Witness for claim C7: a one-key dictionary whose key is overridden
with a different value, with no normaliser configured. -/
theorem claim_C7_witness :
    (normalise_and_set [] 1 [(("a" : String), JVal.intV 1)] ("a") (JVal.intV 2) false false).2.2 =
      some (PErr.keyError (("Overriding property ") ++ ("a" : String))) :=
  (claim_C7 [] 0 [(("a" : String), JVal.intV 1)] ("a") (JVal.intV 2) (JVal.intV 1) (JVal.intV 2)
    rfl rfl rfl).2.2.1

/-! ## Claim C3: metadata-type replacement is atomic -/

/-- Claim C3: assigning a metadata-type definition whose own validation, or
whose validation against the current document, produces an error raises
and leaves the search-field table, system-field table, combined offset
table and stored definition exactly as they were, so a subsequent field
read using the old tables still succeeds (is unchanged). -/
theorem claim_C3 (vmt : JVal → List VMessage) (vdsm : JVal → JVal → List VMessage)
    (parse : JVal → Except String Tables) (s : DsState) (val : JVal)
    (herr : countErrors (vmt val) ≠ 0 ∨
      (countErrors (vmt val) = 0 ∧ countErrors (vdsm s.doc val) ≠ 0)) :
    (set_metadata_type vmt vdsm parse s val).2.isSome = true ∧
    (set_metadata_type vmt vdsm parse s val).1 = s ∧
    (∀ (conv : ConvKind → JVal → Option JVal) (jlt : JVal → JVal → Bool) (name : String),
      get_attr conv jlt (set_metadata_type vmt vdsm parse s val).1 name =
        get_attr conv jlt s name) := by
  have hres : (set_metadata_type vmt vdsm parse s val).1 = s ∧
      (set_metadata_type vmt vdsm parse s val).2.isSome = true := by
    rcases herr with h1 | ⟨h1, h2⟩
    · constructor <;> simp [set_metadata_type, errorTextOf, h1]
    · constructor <;> simp [set_metadata_type, errorTextOf, h1, h2]
  exact ⟨hres.2, hres.1, fun conv jlt name => by rw [hres.1]⟩

/-- Witness for claim C3: a validator that rejects every definition leaves
a concrete instance untouched. -/
theorem claim_C3_witness :
    (set_metadata_type (fun _ => [pmsgE ("bad_offset") ("broken")]) (fun _ _ => [])
        (fun _ => .error ("unused"))
        ⟨.dictV [], .dictV [], none, [], [], [], []⟩ (.dictV [])).1 =
      ⟨.dictV [], .dictV [], none, [], [], [], []⟩ :=
  (claim_C3 (fun _ => [pmsgE ("bad_offset") ("broken")]) (fun _ _ => [])
    (fun _ => .error ("unused"))
    ⟨.dictV [], .dictV [], none, [], [], [], []⟩ (.dictV []) (Or.inl (by decide))).2.1

/-! ## Claim C4: product replacement is lenient -/

/-- Claim C4: assigning a product definition that validates cleanly in
isolation but whose validation against the current dataset produces an
error does not raise and does not install the new definition; a non-fatal
warning describing the incompatibility is issued instead. -/
theorem claim_C4 (vp : JVal → List VMessage) (vdsp : JVal → JVal → List VMessage)
    (s : DsState) (v : JVal)
    (hok : countErrors (vp v) = 0)
    (herr : countErrors (vdsp s.doc v) ≠ 0) :
    (set_product_definition vp vdsp s (some v)).2.1 = none ∧
    (set_product_definition vp vdsp s (some v)).1.productDef = s.productDef ∧
    (set_product_definition vp vdsp s (some v)).2.2.isSome = true := by
  refine ⟨?_, ?_, ?_⟩ <;> simp [set_product_definition, errorTextOf, hok, herr]

/-- Witness for claim C4: a clean product validator paired with a
dataset-incompatibility error warns and leaves the stored product
unchanged. -/
theorem claim_C4_witness :
    (set_product_definition (fun _ => []) (fun _ _ => [pmsgE ("missing_measurement") ("gone")])
        ⟨.dictV [], .dictV [], none, [], [], [], []⟩ (some (.dictV []))).1.productDef = none :=
  (claim_C4 (fun _ => []) (fun _ _ => [pmsgE ("missing_measurement") ("gone")])
    ⟨.dictV [], .dictV [], none, [], [], [], []⟩ (.dictV []) (by decide) (by decide)).2.1

/-! ## Claim C5: unknown-field access (corrected)

The claim as stated is false on the code: ordinary attribute lookup takes
precedence over the field table.  Reading a name that is a class property
(such as `doc`) is not among the metadata-type fields but does not raise;
writing a name with no entry in the combined offset table that is a
settable property (such as `metadata_type`) dispatches to the property
setter and does not raise.
-/

/-- Counterexample to claim C5 as stated: on an instance whose only field
is `id`, reading the attribute `doc` (not a metadata-type field) resolves
by ordinary lookup rather than raising, and writing `metadata_type` (no
entry in the combined offset table) dispatches to the property setter
rather than raising. -/
theorem claim_C5_counterexample :
    get_attr (fun _ v => some v) (fun _ _ => false)
      ⟨.dictV [], .dictV [], none, [], [(("id" : String), .simpleF [("id" : String)] .strC)],
        [(("id" : String), [[("id" : String)]])], []⟩ ("doc") = GetResult.classAttr ∧
    set_attr (fun _ v => some v) (fun _ _ => false) (fun _ => none)
      ⟨.dictV [], .dictV [], none, [], [(("id" : String), .simpleF [("id" : String)] .strC)],
        [(("id" : String), [[("id" : String)]])], []⟩ ("metadata_type")
      (.single (.dictV [])) = SetResult.propertySetterCall ("metadata_type") := by
  constructor
  · rfl
  · rfl

/-- Claim C5, amended: reading an attribute that is neither an ordinary
attribute of the object nor among the metadata-type's fields raises an
error naming the attempted field and carrying the full list of valid field
names, and writing an attribute that is neither an ordinary attribute nor
in the combined offset table raises an error naming the field and carrying
the valid names — neither access is a silent no-op.  (Both statements
require the live field extraction to succeed, as it does on any validated
instance.) -/
theorem claim_C5 (conv : ConvKind → JVal → Option JVal) (jlt : JVal → JVal → Bool)
    (nf : String → Option (JVal → JVal)) (s : DsState) (name : String)
    (fs : List (String × Option FieldVal))
    (hnormal : ¬ name ∈ normalAttrs)
    (hfs : fieldsMap conv jlt s = .ok fs) :
    (fs.lookup name = none →
      get_attr conv jlt s name = GetResult.attrError name (fs.map (fun p => p.1))) ∧
    (s.allOffsets.lookup name = none → fs.any (fun p => p.1 == name) = false →
      set_attr conv jlt nf s name (.single (.dictV [])) =
        SetResult.unknownFieldError name (s.allOffsets.map (fun p => p.1))) := by
  have hs1 : ¬ name ∈ settableProps := fun h =>
    hnormal (by simp [normalAttrs, List.mem_append, h])
  have hs2 : ¬ name ∈ readonlyProps := fun h =>
    hnormal (by simp [normalAttrs, List.mem_append, h])
  have hs3 : ¬ name ∈ plainAttrs := fun h =>
    hnormal (by simp [normalAttrs, List.mem_append, h])
  constructor
  · intro hlook
    unfold get_attr
    rw [if_neg hnormal]
    simp only [hfs]
    rw [hlook]
  · intro hoff hany
    unfold set_attr
    rw [hoff]
    rw [if_neg hs1, if_neg hs2, if_neg hs3]
    simp only [hfs]
    simp [hany]

/-- Witness for amended claim C5: the unknown name `frobnicate` raises the
naming error on both read and write on a concrete instance. -/
theorem claim_C5_witness :
    get_attr (fun _ v => some v) (fun _ _ => false)
      ⟨.dictV [], .dictV [], none, [], [], [(("id" : String), [[("id" : String)]])], []⟩
      ("frobnicate") = GetResult.attrError ("frobnicate") [] ∧
    set_attr (fun _ v => some v) (fun _ _ => false) (fun _ => none)
      ⟨.dictV [], .dictV [], none, [], [], [(("id" : String), [[("id" : String)]])], []⟩
      ("frobnicate") (.single (.dictV [])) =
      SetResult.unknownFieldError ("frobnicate") [("id" : String)] := by
  have h := claim_C5 (fun _ v => some v) (fun _ _ => false) (fun _ => none)
    ⟨.dictV [], .dictV [], none, [], [], [(("id" : String), [[("id" : String)]])], []⟩
    ("frobnicate") [] (by decide) rfl
  exact ⟨h.1 rfl, h.2 rfl rfl⟩

/-! ## Claim C1: stage gating in `validate_dataset` -/

/-- The schema-violation loop reports every error through the shared
messager: its counter increases by exactly the number of error-level
messages yielded. -/
theorem schemaViolationMsgs_counts :
    ∀ (l : List (List String × String)) (m : Msgr),
      ((schemaViolationMsgs l m).2).errors = m.errors + countErrors (schemaViolationMsgs l m).1
  | [], m => by simp [schemaViolationMsgs, countErrors]
  | (path, vmsg) :: rest, m => by
      simp only [schemaViolationMsgs]
      split
      · have ih := schemaViolationMsgs_counts rest ⟨m.context, m.errors + 1⟩
        simp only [Msgr.errorH]
        rw [countErrors_cons_error, ih]
        dsimp only
        omega
      · have ih := schemaViolationMsgs_counts rest ⟨m.context, m.errors + 1⟩
        simp only [Msgr.error]
        rw [countErrors_cons_error, ih]
        dsimp only
        omega

/-- Stage 1 (`_validate_ds_to_schema`) reports every error through the
shared messager. -/
theorem validateDsToSchema_counts (ds : Option String)
    (viol : List (List String × String)) (m : Msgr) :
    ((validateDsToSchema ds viol m).2).errors =
      m.errors + countErrors (validateDsToSchema ds viol m).1 := by
  cases ds with
  | none => simp [validateDsToSchema, Msgr.error, countErrors]
  | some s =>
      by_cases h : s ≠ ODC_DATASET_SCHEMA_URL
      · simp only [validateDsToSchema, if_pos h, Msgr.error]
        rw [countErrors_cons_error, countErrors_nil]
      · simp only [validateDsToSchema, if_neg h]
        exact schemaViolationMsgs_counts viol m

/-- The per-id UUID loop of the lineage stage reports every error through
the shared messager. -/
theorem lineageIdMsgs_counts (uu : String → Bool) (label : String) :
    ∀ (pids : List String) (m : Msgr),
      ((lineageIdMsgs uu label pids m).2).errors =
        m.errors + countErrors (lineageIdMsgs uu label pids m).1
  | [], m => by simp [lineageIdMsgs, countErrors]
  | pid :: rest, m => by
      by_cases h : uu pid = true
      · have ih := lineageIdMsgs_counts uu label rest m
        simp [lineageIdMsgs, h, ih]
      · have ih := lineageIdMsgs_counts uu label rest ⟨m.context, m.errors + 1⟩
        simp only [lineageIdMsgs, Msgr.error]
        rw [if_neg h]
        simp only [List.cons_append, List.nil_append, countErrors_cons_error, ih]
        omega

/-- Stage 2 (`_validate_lineage`) reports every error through the shared
messager (its `nonflat_lineage` messages are info-level). -/
theorem validateLineage_counts (uu : String → Bool) :
    ∀ (lin : List (String × List String)) (m : Msgr),
      ((validateLineage uu lin m).2).errors =
        m.errors + countErrors (validateLineage uu lin m).1
  | [], m => by simp [validateLineage, countErrors]
  | (label, pids) :: rest, m => by
      have h1 := lineageIdMsgs_counts uu label pids m
      have h2 := validateLineage_counts uu rest (lineageIdMsgs uu label pids m).2
      by_cases hl : pids.length > 1
      · simp only [validateLineage, if_pos hl]
        simp only [countErrors_append, countErrors_cons, Msgr.info, h2, h1, countErrors_nil]
        simp [Level.info, countErrors]
        omega
      · simp only [validateLineage, if_neg hl]
        simp only [countErrors_append, h2, h1, countErrors_nil]
        omega

/-- A stage bounded by its yielded errors leaves a zero counter at zero
when it yields no error-level message. -/
theorem stageErr0 (st : Stage) (hb : StageErrBounded st)
    (h0 : ∀ mm, countErrors (st mm).1 = 0) (mm : Msgr) (hmm : mm.errors = 0) :
    ((st mm).2).errors = 0 := by
  have := hb mm
  rw [hmm, h0 mm] at this
  omega

/-- As `stageErr0`, for a stage behind a document-derived guard. -/
theorem stageErr0Guard (b : Bool) (st : Stage) (hb : StageErrBounded st)
    (h0 : ∀ mm, countErrors (st mm).1 = 0) (mm : Msgr) (hmm : mm.errors = 0) :
    ((if b then st mm else (([] : List VMessage), mm)).2).errors = 0 := by
  cases b
  · simpa using hmm
  · simpa using stageErr0 st hb h0 mm hmm

/-- The preamble of `validate_dataset` yields no error when it is not a
thorough run without a product definition. -/
theorem vdPre_noerr (th rp ax : Bool) (ctx0 : List (String × String))
    (h : (th && !rp) = false) :
    (vdPre th rp ax ctx0).2.1 = [] ∧ (vdPre th rp ax ctx0).2.2 = ⟨ctx0, 0⟩ := by
  constructor <;> simp [vdPre, h]

/-- Claim C1: in `validate_dataset`, an error-level message from the
schema stage stops the pipeline (nothing from any later stage is
yielded); an error-level message from the lineage stage stops the
pipeline after stage 2; and when the preamble and stages yield only
warning- or info-level messages (and serialisation succeeds), every later
stage is still attempted: the run equals the gate-free stage sequence. -/
theorem claim_C1 (th rp mg ax : Bool) (ctx0 : List (String × String))
    (ds : Option String) (viol : List (List String × String))
    (lin : List (String × List String)) (uu : String → Bool)
    (ser : Except String Unit) (ph loc rg hm : Bool)
    (sGeo sMeas sProp sAcc sProd sMdt sData : Stage) :
    (countErrors (validateDsToSchema ds viol (vdPre th rp ax ctx0).2.2).1 ≠ 0 →
      validate_dataset th rp mg ax ctx0 ds viol lin uu ser ph loc rg hm
          sGeo sMeas sProp sAcc sProd sMdt sData =
        (vdPre th rp ax ctx0).1 ++ (vdPre th rp ax ctx0).2.1 ++
          (validateDsToSchema ds viol (vdPre th rp ax ctx0).2.2).1) ∧
    ((th && !rp) = false →
      countErrors (validateDsToSchema ds viol (vdPre th rp ax ctx0).2.2).1 = 0 →
      countErrors (validateLineage uu lin
          (validateDsToSchema ds viol (vdPre th rp ax ctx0).2.2).2).1 ≠ 0 →
      validate_dataset th rp mg ax ctx0 ds viol lin uu ser ph loc rg hm
          sGeo sMeas sProp sAcc sProd sMdt sData =
        (vdPre th rp ax ctx0).1 ++ (vdPre th rp ax ctx0).2.1 ++
          (validateDsToSchema ds viol (vdPre th rp ax ctx0).2.2).1 ++
          (validateLineage uu lin
            (validateDsToSchema ds viol (vdPre th rp ax ctx0).2.2).2).1) ∧
    ((th && !rp) = false →
      countErrors (validateDsToSchema ds viol (vdPre th rp ax ctx0).2.2).1 = 0 →
      countErrors (validateLineage uu lin
          (validateDsToSchema ds viol (vdPre th rp ax ctx0).2.2).2).1 = 0 →
      ser = .ok () →
      StageErrBounded sGeo → (∀ mm, countErrors (sGeo mm).1 = 0) →
      StageErrBounded sMeas → (∀ mm, countErrors (sMeas mm).1 = 0) →
      StageErrBounded sProp → (∀ mm, countErrors (sProp mm).1 = 0) →
      StageErrBounded sAcc → (∀ mm, countErrors (sAcc mm).1 = 0) →
      StageErrBounded sProd → (∀ mm, countErrors (sProd mm).1 = 0) →
      validate_dataset th rp mg ax ctx0 ds viol lin uu ser ph loc rg hm
          sGeo sMeas sProp sAcc sProd sMdt sData =
        validate_dataset_all th rp mg ax ctx0 ds viol lin uu ser ph loc rg hm
          sGeo sMeas sProp sAcc sProd sMdt sData) := by
  refine ⟨?_, ?_, ?_⟩
  · intro h1
    have hc := validateDsToSchema_counts ds viol (vdPre th rp ax ctx0).2.2
    have hne : ((validateDsToSchema ds viol (vdPre th rp ax ctx0).2.2).2).errors ≠ 0 := by
      omega
    simp only [validate_dataset]
    rw [if_pos hne]
  · intro hpre h1 h2
    have hp := vdPre_noerr th rp ax ctx0 hpre
    have hc1 := validateDsToSchema_counts ds viol (vdPre th rp ax ctx0).2.2
    have hm2 : ((validateDsToSchema ds viol (vdPre th rp ax ctx0).2.2).2).errors = 0 := by
      rw [hc1, h1, hp.2]
    have hc2 := validateLineage_counts uu lin
      (validateDsToSchema ds viol (vdPre th rp ax ctx0).2.2).2
    have hm3 : ((validateLineage uu lin
        (validateDsToSchema ds viol (vdPre th rp ax ctx0).2.2).2).2).errors ≠ 0 := by
      omega
    simp only [validate_dataset]
    rw [if_neg (by omega), if_pos hm3]
  · intro hpre h1 h2 hser hgB hg0 hmB hm0 hpB hp0 haB ha0 hprB hpr0
    subst hser
    have hp := vdPre_noerr th rp ax ctx0 hpre
    have hc1 := validateDsToSchema_counts ds viol (vdPre th rp ax ctx0).2.2
    have hm2 : ((validateDsToSchema ds viol (vdPre th rp ax ctx0).2.2).2).errors = 0 := by
      rw [hc1, h1, hp.2]
    have hc2 := validateLineage_counts uu lin
      (validateDsToSchema ds viol (vdPre th rp ax ctx0).2.2).2
    have hm3 : ((validateLineage uu lin
        (validateDsToSchema ds viol (vdPre th rp ax ctx0).2.2).2).2).errors = 0 := by
      omega
    have hm4 := stageErr0 sGeo hgB hg0 _ hm3
    have hm5 := stageErr0Guard (rg && hm) sMeas hmB hm0 _ hm4
    have hm6 := stageErr0 sProp hpB hp0 _ hm5
    have hm7 := stageErr0 sAcc haB ha0 _ hm6
    have hm8 := stageErr0Guard rp sProd hprB hpr0 _ hm7
    simp only [validate_dataset, validate_dataset_all]
    rw [if_neg (by omega), if_neg (by omega), if_neg (by omega), if_neg (by omega),
      if_neg (by omega)]

/-- Witness for claim C1: a run with a schema-stage error (no `$schema`
key) stops after stage 1. -/
theorem claim_C1_witness :
    validate_dataset false false false false [] none [] [] (fun _ => true)
        (.ok ()) true false true false
        (fun m => ([], m)) (fun m => ([], m)) (fun m => ([], m)) (fun m => ([], m))
        (fun m => ([], m)) (fun m => ([], m)) (fun m => ([], m)) =
      (vdPre false false false []).1 ++ (vdPre false false false []).2.1 ++
        (validateDsToSchema none [] (vdPre false false false []).2.2).1 :=
  (claim_C1 false false false false [] none [] [] (fun _ => true) (.ok ()) true false true false
      (fun m => ([], m)) (fun m => ([], m)) (fun m => ([], m)) (fun m => ([], m))
      (fun m => ([], m)) (fun m => ([], m)) (fun m => ([], m))).1 (by decide)

/-! ## Claim C9: duplicate measurement names -/

theorem sbeq_false_of_ne {a b : String} (h : a ≠ b) : (a == b) = false := by
  rcases hbe : (a == b) with _ | _
  · rfl
  · exact absurd (beq_iff_eq.mp hbe) h

theorem lookup_cons_hit {β : Type} (k pk : String) (pv : β) (l : List (String × β))
    (h : (k == pk) = true) : List.lookup k ((pk, pv) :: l) = some pv := by
  simp [List.lookup, h]

theorem lookup_cons_miss {β : Type} (k pk : String) (pv : β) (l : List (String × β))
    (h : (k == pk) = false) : List.lookup k ((pk, pv) :: l) = List.lookup k l := by
  simp [List.lookup, h]

theorem lookup_map_replace (k v k2 : String) (h : k2 ≠ k) :
    ∀ s : List (String × List String),
      List.lookup k2 (s.map (fun p => if p.1 == k then (p.1, p.2 ++ [v]) else p)) =
        List.lookup k2 s
  | [] => rfl
  | (pk, pv) :: rest => by
      have ih := lookup_map_replace k v k2 h rest
      by_cases hk : (pk == k) = true
      · have hp1 : pk = k := beq_iff_eq.mp hk
        have h2 : (k2 == pk) = false := sbeq_false_of_ne (by rw [hp1]; exact h)
        rw [List.map_cons, if_pos hk, lookup_cons_miss _ _ _ _ h2,
          lookup_cons_miss _ _ _ _ h2, ih]
      · rcases hl : (k2 == pk) with _ | _
        · rw [List.map_cons, if_neg hk, lookup_cons_miss _ _ _ _ hl,
            lookup_cons_miss _ _ _ _ hl, ih]
        · rw [List.map_cons, if_neg hk, lookup_cons_hit _ _ _ _ hl,
            lookup_cons_hit _ _ _ _ hl]

theorem lookup_map_app_self (k v : String) :
    ∀ s : List (String × List String), s.any (fun p => p.1 == k) = true →
      List.lookup k (s.map (fun p => if p.1 == k then (p.1, p.2 ++ [v]) else p)) =
        some (seenGet s k ++ [v])
  | [], h => by simp at h
  | (pk, pv) :: rest, h => by
      by_cases hk : (pk == k) = true
      · have hp1 : pk = k := beq_iff_eq.mp hk
        have h2 : (k == pk) = true := beq_iff_eq.mpr hp1.symm
        rw [List.map_cons, if_pos hk, lookup_cons_hit _ _ _ _ h2]
        simp only [seenGet, lookup_cons_hit _ _ _ _ h2]
        rfl
      · have h2 : (k == pk) = false := by
          rcases hbe : (k == pk) with _ | _
          · rfl
          · rw [show pk = k from (beq_iff_eq.mp hbe).symm] at hk
            simp at hk
        have hany : rest.any (fun p => p.1 == k) = true := by
          rcases List.any_eq_true.mp h with ⟨q, hq, hq2⟩
          rcases List.mem_cons.mp hq with rfl | hq
          · exact absurd hq2 hk
          · exact List.any_eq_true.mpr ⟨q, hq, hq2⟩
        have ih := lookup_map_app_self k v rest hany
        rw [List.map_cons, if_neg hk, lookup_cons_miss _ _ _ _ h2, ih]
        simp only [seenGet, lookup_cons_miss _ _ _ _ h2]

theorem lookup_append_right {β : Type} (k : String) :
    ∀ s : List (String × β), List.lookup k s = none →
      ∀ t : List (String × β), List.lookup k (s ++ t) = List.lookup k t
  | [], _, t => rfl
  | (pk, pv) :: rest, h, t => by
      rcases hl : (k == pk) with _ | _
      · rw [lookup_cons_miss _ _ _ _ hl] at h
        rw [List.cons_append, lookup_cons_miss _ _ _ _ hl]
        exact lookup_append_right k rest h t
      · rw [lookup_cons_hit _ _ _ _ hl] at h
        exact absurd h (by simp)

theorem lookup_none_of_any_false {β : Type} (k : String) :
    ∀ s : List (String × β), s.any (fun p => p.1 == k) = false →
      List.lookup k s = none
  | [], _ => rfl
  | (pk, pv) :: rest, h => by
      simp only [List.any_cons, Bool.or_eq_false_iff] at h
      have h2 : (k == pk) = false := by
        rcases hbe : (k == pk) with _ | _
        · rfl
        · rw [show pk = k from (beq_iff_eq.mp hbe).symm] at h
          simp at h
      rw [lookup_cons_miss _ _ _ _ h2]
      exact lookup_none_of_any_false k rest h.2

/-- `seen[k].append(v)` grows the entry for `k` by `v`. -/
theorem seenGet_app_self (s : List (String × List String)) (k v : String) :
    seenGet (seenApp s k v) k = seenGet s k ++ [v] := by
  by_cases h : s.any (fun p => p.1 == k) = true
  · rw [seenApp, if_pos h]
    simp only [seenGet]
    rw [lookup_map_app_self k v s h]
    rfl
  · rw [seenApp, if_neg h]
    have hn := lookup_none_of_any_false k s (Bool.eq_false_iff.mpr h)
    simp only [seenGet]
    rw [lookup_append_right k s hn]
    simp [List.lookup, hn]

/-- `seen[k].append(v)` leaves other entries unchanged. -/
theorem seenGet_app_other (s : List (String × List String)) (k v k2 : String)
    (h : k2 ≠ k) : seenGet (seenApp s k v) k2 = seenGet s k2 := by
  by_cases ha : s.any (fun p => p.1 == k) = true
  · rw [seenApp, if_pos ha]
    simp only [seenGet]
    rw [lookup_map_replace k v k2 h s]
  · rw [seenApp, if_neg ha]
    simp only [seenGet]
    induction s with
    | nil => simp [List.lookup, sbeq_false_of_ne h]
    | cons p rest ih =>
        obtain ⟨pk, pv⟩ := p
        simp only [List.any_cons, Bool.or_eq_true, not_or] at ha
        rcases hl : (k2 == pk) with _ | _
        · rw [List.cons_append, lookup_cons_miss _ _ _ _ hl, lookup_cons_miss _ _ _ _ hl]
          exact ih ha.2
        · rw [List.cons_append, lookup_cons_hit _ _ _ _ hl, lookup_cons_hit _ _ _ _ hl]

theorem charEq_of_toNat (c d : Char) (h : c.toNat = d.toNat) : c = d := by
  apply Char.ext
  apply UInt32.ext
  exact h

theorem strEq_of_data {a b : String} (h : a.data = b.data) : a = b := by
  cases a; cases b; simp_all

theorem strLeBgo_total : ∀ xs ys : List Char, strLeB.go xs ys = true ∨ strLeB.go ys xs = true
  | [], _ => Or.inl rfl
  | _ :: _, [] => Or.inr rfl
  | c :: cs, d :: ds => by
      rcases Nat.lt_trichotomy c.toNat d.toNat with h | h | h
      · left; simp [strLeB.go, h]
      · rcases strLeBgo_total cs ds with ih | ih
        · left; simp [strLeB.go, h, ih]
        · right; simp [strLeB.go, h.symm, ih]
      · right; simp [strLeB.go, h]

theorem strLeBgo_trans :
    ∀ xs ys zs : List Char, strLeB.go xs ys = true → strLeB.go ys zs = true →
      strLeB.go xs zs = true
  | [], _, _, _, _ => rfl
  | _ :: _, [], _, h, _ => by simp [strLeB.go] at h
  | _ :: _, _ :: _, [], _, h => by simp [strLeB.go] at h
  | c :: cs, d :: ds, e :: es, h1, h2 => by
      simp only [strLeB.go] at h1 h2 ⊢
      by_cases hcd : c.toNat < d.toNat
      · by_cases hde : d.toNat < e.toNat
        · simp [Nat.lt_trans hcd hde]
        · by_cases hde2 : e.toNat < d.toNat
          · simp [hde2] at h2
            exact absurd h2 hde
          · have : d.toNat = e.toNat := by omega
            simp [this ▸ hcd]
      · by_cases hdc : d.toNat < c.toNat
        · simp [hcd, hdc] at h1
        · have hcd2 : c.toNat = d.toNat := by omega
          by_cases hde : d.toNat < e.toNat
          · simp [hcd2 ▸ hde]
          · by_cases hde2 : e.toNat < d.toNat
            · simp [hde2] at h2
              exact absurd h2 hde
            · have : ¬ c.toNat < e.toNat := by omega
              have : ¬ e.toNat < c.toNat := by omega
              simp_all [strLeBgo_trans cs ds es]

theorem strLeBgo_antisymm :
    ∀ xs ys : List Char, strLeB.go xs ys = true → strLeB.go ys xs = true → xs = ys
  | [], [], _, _ => rfl
  | [], _ :: _, _, h => by simp [strLeB.go] at h
  | _ :: _, [], h, _ => by simp [strLeB.go] at h
  | c :: cs, d :: ds, h1, h2 => by
      simp only [strLeB.go] at h1 h2
      by_cases hcd : c.toNat < d.toNat
      · simp [hcd, Nat.lt_asymm hcd] at h2
      · by_cases hdc : d.toNat < c.toNat
        · simp [hcd, hdc] at h1
        · have hce : c = d := charEq_of_toNat c d (by omega)
          simp only [hcd, hdc, if_neg, if_false] at h1 h2
          rw [hce, strLeBgo_antisymm cs ds (by simpa [hcd, hdc] using h1) (by simpa [hcd, hdc] using h2)]

theorem strLeB_total (a b : String) : strLeB a b = true ∨ strLeB b a = true :=
  strLeBgo_total a.data b.data

theorem strLeB_trans (a b c : String) (h1 : strLeB a b = true) (h2 : strLeB b c = true) :
    strLeB a c = true :=
  strLeBgo_trans a.data b.data c.data h1 h2

theorem strLeB_antisymm (a b : String) (h1 : strLeB a b = true) (h2 : strLeB b a = true) :
    a = b :=
  strEq_of_data (strLeBgo_antisymm a.data b.data h1 h2)

/-- Membership in the adjacent-equal scan is preserved by consing. -/
theorem adjDups_cons_sub (a n : String) :
    ∀ l : List String, n ∈ adjDups l → n ∈ adjDups (a :: l)
  | [], h => by simp [adjDups] at h
  | b :: t, h => by
      simp only [adjDups]
      exact List.mem_append.mpr (Or.inr h)

/-- In a sorted list, a value occurring at least twice appears in the
adjacent-equal scan. -/
theorem sorted_count_mem_adjDups (n : String) :
    ∀ l : List String, List.Pairwise strLeP l → 2 ≤ List.count n l → n ∈ adjDups l
  | [], _, hc => by simp at hc
  | [a], _, hc => by
      by_cases h : a = n <;> simp [List.count_cons, List.count_nil, h] at hc
  | a :: b :: t, hp, hc => by
      by_cases hn : n = a
      · subst hn
        have hmem : n ∈ b :: t := by
          have hc' : 2 ≤ List.count n (b :: t) + 1 := by
            simpa [List.count_cons] using hc
          exact List.count_pos_iff.mp (by omega)
        by_cases hb : b = n
        · subst hb
          simp only [adjDups]
          apply List.mem_append.mpr
          left
          simp
        · exfalso
          have hab : strLeP n b := (List.pairwise_cons.mp hp).1 b (by simp)
          have hbn : strLeP b n := by
            have hnt : n ∈ t := by
              rcases List.mem_cons.mp hmem with h | h
              · exact absurd h.symm hb
              · exact h
            have hp2 := (List.pairwise_cons.mp hp).2
            exact (List.pairwise_cons.mp hp2).1 n hnt
          exact hb (strLeB_antisymm b n hbn hab)
      · have hc2 : 2 ≤ List.count n (b :: t) := by
          rw [List.count_cons] at hc
          have : (a == n) = false := sbeq_false_of_ne (fun h => hn h.symm)
          rw [this] at hc
          simpa using hc
        exact adjDups_cons_sub a n (b :: t)
          (sorted_count_mem_adjDups n (b :: t) (List.pairwise_cons.mp hp).2 hc2)

/-- Registering names keeps an already-nonempty `seen` entry nonempty. -/
theorem seenGet_foldl_mono (v : String) :
    ∀ (names : List String) (seen : List (String × List String)) (n : String),
      seenGet seen n ≠ [] →
      seenGet (names.foldl (fun s a => seenApp s a v) seen) n ≠ []
  | [], _, _, h => h
  | a :: rest, seen, n, h => by
      rw [List.foldl_cons]
      apply seenGet_foldl_mono v rest
      by_cases hn : n = a
      · subst hn
        rw [seenGet_app_self]
        simp
      · rw [seenGet_app_other _ _ _ _ hn]
        exact h

/-- After registering a list of names, each of them has a nonempty `seen`
entry. -/
theorem seenGet_foldl_mem (v : String) :
    ∀ (names : List String) (seen : List (String × List String)) (n : String),
      n ∈ names →
      seenGet (names.foldl (fun s a => seenApp s a v) seen) n ≠ []
  | [], _, n, h => absurd h (List.not_mem_nil n)
  | a :: rest, seen, n, h => by
      rw [List.foldl_cons]
      by_cases hn : n = a
      · subst hn
        apply seenGet_foldl_mono v rest
        rw [seenGet_app_self]
        simp
      · have hr : n ∈ rest := by
          rcases List.mem_cons.mp h with h1 | h1
          · exact absurd h1 hn
          · exact h1
        exact seenGet_foldl_mem v rest _ n hr

/-- Registering a list of names leaves unrelated `seen` entries
unchanged. -/
theorem seenGet_foldl_ne (v : String) :
    ∀ (names : List String) (seen : List (String × List String)) (n : String),
      n ∉ names →
      seenGet (names.foldl (fun s a => seenApp s a v) seen) n = seenGet seen n
  | [], _, _, _ => rfl
  | a :: rest, seen, n, h => by
      have hna : n ≠ a := fun he => h (he ▸ List.mem_cons_self a rest)
      have hnr : n ∉ rest := fun hm => h (List.mem_cons.mpr (Or.inr hm))
      rw [List.foldl_cons, seenGet_foldl_ne v rest _ n hnr,
        seenGet_app_other _ _ _ _ hna]

/-- A name already seen yields a `duplicate_measurement_name` error with
the canonical reason. -/
theorem dupNameMsgs_exists (mname n : String) (seen : List (String × List String)) :
    ∀ names : List String, n ∈ names → seenGet seen n ≠ [] →
      ∃ msg ∈ dupNameMsgs mname seen names,
        msg.level = Level.error ∧ msg.code = ("duplicate_measurement_name") ∧
        msg.reason = dupNameReason n
  | [], h, _ => absurd h (List.not_mem_nil n)
  | a :: rest, h, hg => by
      by_cases hn : n = a
      · subst hn
        refine ⟨pmsgEH ("duplicate_measurement_name") (dupNameReason n)
          (("Seen in measurement(s) ") ++
            String.intercalate (" and ") (mname :: seenGet seen n)), ?_, rfl, rfl, rfl⟩
        simp only [dupNameMsgs]
        rw [if_pos hg]
        exact List.mem_append.mpr (Or.inl (List.mem_singleton.mpr rfl))
      · have hr : n ∈ rest := by
          rcases List.mem_cons.mp h with h1 | h1
          · exact absurd h1 hn
          · exact h1
        rcases dupNameMsgs_exists mname n seen rest hr hg with ⟨msg, hm, hp⟩
        refine ⟨msg, ?_, hp⟩
        simp only [dupNameMsgs]
        exact List.mem_append.mpr (Or.inr hm)

/-- Every message of the duplicate-name loop names some already-seen name
from the list and carries the canonical code and reason. -/
theorem dupNameMsgs_shape (mname : String) (seen : List (String × List String)) :
    ∀ (names : List String) (msg : VMessage), msg ∈ dupNameMsgs mname seen names →
      ∃ n, n ∈ names ∧ seenGet seen n ≠ [] ∧ msg.reason = dupNameReason n ∧
        msg.code = ("duplicate_measurement_name") ∧ msg.level = Level.error
  | [], msg, h => absurd h (List.not_mem_nil msg)
  | a :: rest, msg, h => by
      simp only [dupNameMsgs] at h
      rcases List.mem_append.mp h with h1 | h1
      · by_cases hg : seenGet seen a ≠ []
        · rw [if_pos hg] at h1
          rw [List.mem_singleton] at h1
          subst h1
          exact ⟨a, List.mem_cons_self a rest, hg, rfl, rfl, rfl⟩
        · rw [if_neg hg] at h1
          exact absurd h1 (List.not_mem_nil msg)
      · rcases dupNameMsgs_shape mname seen rest msg h1 with ⟨n, hn, hg, hr, hc, hl⟩
        exact ⟨n, List.mem_cons.mpr (Or.inr hn), hg, hr, hc, hl⟩

/-- No name of the list seen before: the duplicate-name loop is silent. -/
theorem dupNameMsgs_nil (mname : String) (seen : List (String × List String)) :
    ∀ names : List String, (∀ n ∈ names, seenGet seen n = []) →
      dupNameMsgs mname seen names = []
  | [], _ => rfl
  | a :: rest, h => by
      simp only [dupNameMsgs]
      rw [if_neg (by simp [h a (List.mem_cons_self a rest)]),
        dupNameMsgs_nil mname seen rest (fun n hn => h n (List.mem_cons.mpr (Or.inr hn)))]
      rfl

/-- The duplicate-name reason determines the name. -/
theorem dupNameReason_inj {a b : String} (h : dupNameReason a = dupNameReason b) :
    a = b := by
  have hd := congrArg String.data h
  simp only [dupNameReason, String.data_append] at hd
  exact strEq_of_data (List.append_cancel_left (List.append_cancel_right hd))

/-- A name occurring at least twice among a measurement's names and
aliases is reported by `_find_duplicates`. -/
theorem count_mem_findDuplicates (n : String) (l : List String)
    (h : 2 ≤ List.count n l) : n ∈ findDuplicates l := by
  have hperm := List.perm_insertionSort strLeP l
  have hsorted : List.Pairwise strLeP (l.insertionSort strLeP) := by
    have htot : IsTotal String strLeP := ⟨fun a b => strLeB_total a b⟩
    have htrans : IsTrans String strLeP := ⟨fun a b c => strLeB_trans a b c⟩
    exact List.sorted_insertionSort strLeP l
  have hcount : List.count n (l.insertionSort strLeP) = List.count n l :=
    hperm.count_eq n
  exact sorted_count_mem_adjDups n (l.insertionSort strLeP) hsorted (by omega)

/-- Spectral-definition messages never carry the duplicate-name code. -/
theorem validateSpectral_no_dup (sd : SpecDef) (msg : VMessage)
    (h : msg ∈ validateSpectral sd) : msg.code ≠ ("duplicate_measurement_name") := by
  unfold validateSpectral at h
  split at h
  · split at h
    · rw [List.mem_singleton] at h
      subst h
      decide
    · exact absurd h (List.not_mem_nil msg)
  · rw [List.mem_singleton] at h
    subst h
    decide

/-- Flag-value messages never carry the duplicate-name code. -/
theorem flagValueMsgs_no_dup (b : Bool) (values : List (FlagKey × FlagVal))
    (msg : VMessage) (h : msg ∈ flagValueMsgs b values) :
    msg.code ≠ ("duplicate_measurement_name") := by
  unfold flagValueMsgs at h
  rw [List.mem_flatMap] at h
  rcases h with ⟨kv, _, h⟩
  rcases List.mem_append.mp h with h | h
  · split at h
    · split at h
      · exact absurd h (List.not_mem_nil msg)
      · exact absurd h (List.not_mem_nil msg)
      · rw [List.mem_singleton] at h
        subst h
        decide
    · split at h
      · split at h
        · rw [List.mem_singleton] at h
          subst h
          decide
        · exact absurd h (List.not_mem_nil msg)
      · rw [List.mem_singleton] at h
        subst h
        decide
  · split at h
    · exact absurd h (List.not_mem_nil msg)
    · rw [List.mem_singleton] at h
      subst h
      decide

/-- Flag-definition messages never carry the duplicate-name code. -/
theorem validateFlags_no_dup (flags : List (String × FlagDef)) (msg : VMessage)
    (h : msg ∈ validateFlags flags) : msg.code ≠ ("duplicate_measurement_name") := by
  unfold validateFlags at h
  rw [List.mem_flatMap] at h
  rcases h with ⟨nfd, _, h⟩
  split at h
  · rw [List.mem_singleton] at h
    subst h
    decide
  · split at h
    · rw [List.mem_singleton] at h
      subst h
      decide
    · exact flagValueMsgs_no_dup _ _ msg h
  · rcases List.mem_append.mp h with h | h
    · rw [List.mem_flatMap] at h
      rcases h with ⟨b, _, h⟩
      split at h
      · split at h
        · rw [List.mem_singleton] at h
          subst h
          decide
        · exact absurd h (List.not_mem_nil msg)
      · rw [List.mem_singleton] at h
        subst h
        decide
    · exact flagValueMsgs_no_dup _ _ msg h

/-- Any duplicate-name-coded message of `validate_product_measurement`
comes from its duplicate-name loop, run on the incoming `seen` table. -/
theorem vpm_dup_src (m : PMeasurement) (seen : List (String × List String))
    (ed : List (String × ExtraDim)) (msg : VMessage)
    (h : msg ∈ (validate_product_measurement m seen ed).1)
    (hc : msg.code = ("duplicate_measurement_name")) :
    msg ∈ dupNameMsgs m.name seen (namesOf m) := by
  simp only [validate_product_measurement] at h
  rcases List.mem_append.mp h with h | h
  · rcases List.mem_append.mp h with h | h
    · rcases List.mem_append.mp h with h | h
      · rcases List.mem_append.mp h with h | h
        · split at h
          · exact absurd h (List.not_mem_nil msg)
          · rw [List.mem_singleton] at h
            subst h
            simp only [pmsgE, pmsgEH, pmsgI] at hc
            exact absurd hc (by decide)
        · exact h
      · rw [List.mem_map] at h
        rcases h with ⟨d, _, h⟩
        subst h
        simp only [pmsgE, pmsgEH, pmsgI] at hc
        exact absurd hc (by decide)
    · split at h
      · split at h
        · rw [List.mem_singleton] at h
          subst h
          simp only [pmsgE, pmsgEH, pmsgI] at hc
          exact absurd hc (by decide)
        · split at h
          · rcases List.mem_append.mp h with h | h
            · split at h
              · rw [List.mem_singleton] at h
                subst h
                simp only [pmsgE, pmsgEH, pmsgI] at hc
                exact absurd hc (by decide)
              · exact absurd h (List.not_mem_nil msg)
            · rw [List.mem_flatMap] at h
              rcases h with ⟨sd, _, h⟩
              exact absurd hc (validateSpectral_no_dup sd msg h)
          · exact absurd h (List.not_mem_nil msg)
      · split at h
        · rw [List.mem_flatMap] at h
          rcases h with ⟨sd, _, h⟩
          exact absurd hc (validateSpectral_no_dup sd msg h)
        · exact absurd h (List.not_mem_nil msg)
  · split at h
    · exact absurd hc (validateFlags_no_dup _ msg h)
    · exact absurd h (List.not_mem_nil msg)

/-- The duplicate-name loop's messages are among the measurement's
messages. -/
theorem vpm_mem_dup (m : PMeasurement) (seen : List (String × List String))
    (ed : List (String × ExtraDim)) (msg : VMessage)
    (h : msg ∈ dupNameMsgs m.name seen (namesOf m)) :
    msg ∈ (validate_product_measurement m seen ed).1 := by
  simp only [validate_product_measurement]
  exact List.mem_append.mpr (Or.inl (List.mem_append.mpr (Or.inl
    (List.mem_append.mpr (Or.inl (List.mem_append.mpr (Or.inr h)))))))

/-- A duplicated alias is reported as an info-level message. -/
theorem vpm_mem_alias (m : PMeasurement) (seen : List (String × List String))
    (ed : List (String × ExtraDim)) (n : String)
    (h : n ∈ findDuplicates (namesOf m)) :
    ∃ msg ∈ (validate_product_measurement m seen ed).1,
      msg.level = Level.info ∧ msg.code = ("duplicate_alias_name") ∧
      msg.reason = ("Measurement ") ++ m.name ++ (" has a duplicate alias named ") ++ n := by
  refine ⟨pmsgI ("duplicate_alias_name")
    (("Measurement ") ++ m.name ++ (" has a duplicate alias named ") ++ n),
    ?_, rfl, rfl, rfl⟩
  simp only [validate_product_measurement]
  refine List.mem_append.mpr (Or.inl (List.mem_append.mpr (Or.inl
    (List.mem_append.mpr (Or.inr ?_)))))
  exact List.mem_map.mpr ⟨n, h, rfl⟩

/-- The updated `seen` table of `validate_product_measurement` registers
the measurement's names and aliases under the measurement name. -/
theorem vpm_snd (m : PMeasurement) (seen : List (String × List String))
    (ed : List (String × ExtraDim)) :
    (validate_product_measurement m seen ed).2 =
      (namesOf m).foldl (fun s n => seenApp s n m.name) seen := rfl

/-- The measurement loop over an appended list splits at the intermediate
`seen` table. -/
theorem runMeasurements_append (ed : List (String × ExtraDim)) :
    ∀ (xs ys : List PMeasurement) (seen : List (String × List String)),
      runMeasurements ed (xs ++ ys) seen =
        runMeasurements ed xs seen ++ runMeasurements ed ys (seenAfter xs seen)
  | [], ys, seen => rfl
  | m :: xs, ys, seen => by
      simp only [List.cons_append, runMeasurements, seenAfter, List.append_eq]
      rw [runMeasurements_append ed xs ys, vpm_snd, List.append_assoc]

/-- The `seen` table after an appended measurement list. -/
theorem seenAfter_append :
    ∀ (xs ys : List PMeasurement) (seen : List (String × List String)),
      seenAfter (xs ++ ys) seen = seenAfter ys (seenAfter xs seen)
  | [], _, _ => rfl
  | m :: xs, ys, seen => by
      simp only [List.cons_append, seenAfter]
      exact seenAfter_append xs ys _

/-- Processing measurements never empties a `seen` entry. -/
theorem seenAfter_mono (n : String) :
    ∀ (ms : List PMeasurement) (seen : List (String × List String)),
      seenGet seen n ≠ [] → seenGet (seenAfter ms seen) n ≠ []
  | [], _, h => h
  | m :: rest, seen, h =>
      seenAfter_mono n rest _ (seenGet_foldl_mono m.name (namesOf m) seen n h)

/-- A single measurement's messages embed into the loop over any list
containing it, at its own `seen` table. -/
theorem mem_run_of_mem_vpm (ed : List (String × ExtraDim)) (xs : List PMeasurement)
    (m : PMeasurement) (ys : List PMeasurement) (seen0 : List (String × List String))
    (msg : VMessage)
    (h : msg ∈ (validate_product_measurement m (seenAfter xs seen0) ed).1) :
    msg ∈ runMeasurements ed (xs ++ m :: ys) seen0 := by
  rw [runMeasurements_append]
  apply List.mem_append.mpr
  right
  simp only [runMeasurements]
  exact List.mem_append.mpr (Or.inl h)

/-- Two measurements sharing a name: the loop yields the duplicate-name
error. -/
theorem run_dup_exists (ed : List (String × ExtraDim))
    (seen0 : List (String × List String)) (n : String)
    (l1 l2 l3 : List PMeasurement) (m1 m2 : PMeasurement)
    (h1 : n ∈ namesOf m1) (h2 : n ∈ namesOf m2) :
    ∃ msg ∈ runMeasurements ed (l1 ++ m1 :: l2 ++ m2 :: l3) seen0,
      msg.level = Level.error ∧ msg.code = ("duplicate_measurement_name") ∧
      msg.reason = dupNameReason n := by
  have hseen : seenGet (seenAfter (l1 ++ m1 :: l2) seen0) n ≠ [] := by
    rw [seenAfter_append]
    simp only [seenAfter]
    apply seenAfter_mono n l2
    exact seenGet_foldl_mem m1.name (namesOf m1) _ n h1
  rcases dupNameMsgs_exists m2.name n _ (namesOf m2) h2 hseen with ⟨msg, hm, hp⟩
  refine ⟨msg, ?_, hp⟩
  have hmem := mem_run_of_mem_vpm ed (l1 ++ m1 :: l2) m2 l3 seen0 msg
    (vpm_mem_dup m2 _ ed msg hm)
  simpa [List.append_assoc] using hmem

/-- A name duplicated within one measurement yields the alias-duplicate
info message. -/
theorem run_alias_exists (ed : List (String × ExtraDim))
    (seen0 : List (String × List String)) (n : String)
    (l1 l2 : List PMeasurement) (m1 : PMeasurement)
    (h : 2 ≤ List.count n (namesOf m1)) :
    ∃ msg ∈ runMeasurements ed (l1 ++ m1 :: l2) seen0,
      msg.level = Level.info ∧ msg.code = ("duplicate_alias_name") ∧
      msg.reason = ("Measurement ") ++ m1.name ++ (" has a duplicate alias named ") ++ n := by
  rcases vpm_mem_alias m1 (seenAfter l1 seen0) ed n (count_mem_findDuplicates n _ h)
    with ⟨msg, hm, hp⟩
  exact ⟨msg, mem_run_of_mem_vpm ed l1 m1 l2 seen0 msg hm, hp⟩

/-- Globally unique names: the loop yields no duplicate-name error. -/
theorem run_nodup (ed : List (String × ExtraDim)) :
    ∀ (ms : List PMeasurement) (seen : List (String × List String)),
      (∀ n ∈ ms.flatMap namesOf, seenGet seen n = []) →
      (ms.flatMap namesOf).Nodup →
      ∀ msg ∈ runMeasurements ed ms seen, msg.code ≠ ("duplicate_measurement_name")
  | [], _, _, _, msg, h => absurd h (List.not_mem_nil msg)
  | m :: rest, seen, hinit, hnodup, msg, h => by
      rw [List.flatMap_cons] at hinit hnodup
      rw [List.nodup_append] at hnodup
      simp only [runMeasurements] at h
      rcases List.mem_append.mp h with h | h
      · intro hc
        rcases dupNameMsgs_shape m.name seen (namesOf m) msg
          (vpm_dup_src m seen ed msg h hc) with ⟨n, hn, hg, _, _, _⟩
        exact hg (hinit n (List.mem_append.mpr (Or.inl hn)))
      · have hinit2 : ∀ n ∈ rest.flatMap namesOf,
            seenGet ((validate_product_measurement m seen ed).2) n = [] := by
          intro n hn
          rw [vpm_snd]
          have hnotm : n ∉ namesOf m := fun hmem => hnodup.2.2 hmem hn
          rw [seenGet_foldl_ne m.name (namesOf m) seen n hnotm]
          exact hinit n (List.mem_append.mpr (Or.inr hn))
        exact run_nodup ed rest _ hinit2 hnodup.2.1 msg h

/-- A name mentioned by no measurement of the list is never the subject of
a duplicate-name error. -/
theorem run_not_mentioned (ed : List (String × ExtraDim)) (n : String) :
    ∀ (ms : List PMeasurement) (seen : List (String × List String)),
      (∀ m ∈ ms, n ∉ namesOf m) →
      ∀ msg ∈ runMeasurements ed ms seen, msg.code = ("duplicate_measurement_name") →
        msg.reason ≠ dupNameReason n
  | [], _, _, msg, h, _ => absurd h (List.not_mem_nil msg)
  | m :: rest, seen, hno, msg, h, hc => by
      simp only [runMeasurements] at h
      rcases List.mem_append.mp h with h | h
      · rcases dupNameMsgs_shape m.name seen (namesOf m) msg
          (vpm_dup_src m seen ed msg h hc) with ⟨n2, hn2, _, hr, _, _⟩
        intro hrn
        rw [hr] at hrn
        rw [dupNameReason_inj hrn] at hn2
        exact hno m (List.mem_cons_self m rest) hn2
      · exact run_not_mentioned ed n rest _
          (fun m2 hm2 => hno m2 (List.mem_cons.mpr (Or.inr hm2))) msg h hc

/-- A name unseen on entry and mentioned by at most one measurement is
never the subject of a duplicate-name error. -/
theorem run_no_dup_reason (ed : List (String × ExtraDim)) (n : String) :
    ∀ (ms : List PMeasurement) (seen : List (String × List String)),
      seenGet seen n = [] →
      List.countP (fun m => decide (n ∈ namesOf m)) ms ≤ 1 →
      ∀ msg ∈ runMeasurements ed ms seen, msg.code = ("duplicate_measurement_name") →
        msg.reason ≠ dupNameReason n
  | [], _, _, _, msg, h, _ => absurd h (List.not_mem_nil msg)
  | m :: rest, seen, hseen, hcount, msg, h, hc => by
      simp only [runMeasurements] at h
      rcases List.mem_append.mp h with h | h
      · rcases dupNameMsgs_shape m.name seen (namesOf m) msg
          (vpm_dup_src m seen ed msg h hc) with ⟨n2, _, hg, hr, _, _⟩
        intro hrn
        rw [hr] at hrn
        rw [dupNameReason_inj hrn] at hg
        exact hg hseen
      · by_cases hm : n ∈ namesOf m
        · have hrest : ∀ m2 ∈ rest, n ∉ namesOf m2 := by
            intro m2 hm2 hnm2
            have h1 : List.countP (fun m => decide (n ∈ namesOf m)) (m :: rest) =
                List.countP (fun m => decide (n ∈ namesOf m)) rest + 1 := by
              rw [List.countP_cons]
              simp [hm]
            rw [h1] at hcount
            have hz : List.countP (fun m => decide (n ∈ namesOf m)) rest = 0 := by omega
            rw [List.countP_eq_zero] at hz
            exact absurd hnm2 (by simpa using hz m2 hm2)
          exact run_not_mentioned ed n rest _ hrest msg h hc
        · have hseen2 : seenGet ((validate_product_measurement m seen ed).2) n = [] := by
            rw [vpm_snd, seenGet_foldl_ne m.name (namesOf m) seen n hm]
            exact hseen
          have hcount2 : List.countP (fun m => decide (n ∈ namesOf m)) rest ≤ 1 := by
            rw [List.countP_cons] at hcount
            omega
          exact run_no_dup_reason ed n rest _ hseen2 hcount2 msg h hc

/-- A name occurring only inside one measurement of a split list is
mentioned by at most one measurement. -/
theorem countP_le_one_of_once (n : String) (l1 l2 : List PMeasurement)
    (m1 : PMeasurement) (h : n ∉ (l1 ++ l2).flatMap namesOf) :
    List.countP (fun m => decide (n ∈ namesOf m)) (l1 ++ m1 :: l2) ≤ 1 := by
  have h1 : ∀ m ∈ l1, n ∉ namesOf m := fun m hm hn =>
    h (List.mem_flatMap.mpr ⟨m, List.mem_append.mpr (Or.inl hm), hn⟩)
  have h2 : ∀ m ∈ l2, n ∉ namesOf m := fun m hm hn =>
    h (List.mem_flatMap.mpr ⟨m, List.mem_append.mpr (Or.inr hm), hn⟩)
  have hz1 : List.countP (fun m => decide (n ∈ namesOf m)) l1 = 0 :=
    List.countP_eq_zero.mpr (fun m hm => by simpa using h1 m hm)
  have hz2 : List.countP (fun m => decide (n ∈ namesOf m)) l2 = 0 :=
    List.countP_eq_zero.mpr (fun m hm => by simpa using h2 m hm)
  rw [List.countP_append, List.countP_cons, hz1, hz2]
  split <;> omega

/-- Product-metadata messages never carry the duplicate-name code. -/
theorem validateProductMetadata_no_dup (tmpl : List MetaEntry) (name : String)
    (msg : VMessage) (h : msg ∈ validateProductMetadata tmpl name) :
    msg.code ≠ ("duplicate_measurement_name") := by
  intro hc
  unfold validateProductMetadata at h
  rw [List.mem_flatMap] at h
  rcases h with ⟨ent, _, h⟩
  rcases ent with kvs | kvs | k
  · dsimp only at h
    rw [List.mem_flatMap] at h
    rcases h with ⟨kv, _, h⟩
    split at h
    · split at h
      · rw [List.mem_singleton] at h
        subst h
        simp only [pmsgE] at hc
        exact absurd hc (by decide)
      · rw [List.mem_singleton] at h
        subst h
        simp only [pmsgW] at hc
        exact absurd hc (by decide)
    · rw [List.mem_singleton] at h
      subst h
      simp only [pmsgE] at hc
      exact absurd hc (by decide)
  · dsimp only at h
    rw [List.mem_flatMap] at h
    rcases h with ⟨kv, _, h⟩
    split at h
    · rw [List.mem_singleton] at h
      subst h
      simp only [pmsgE] at hc
      exact absurd hc (by decide)
    · split at h
      · rw [List.mem_singleton] at h
        subst h
        simp only [pmsgEH] at hc
        exact absurd hc (by decide)
      · exact absurd h (List.not_mem_nil msg)
  · dsimp only at h
    rw [List.mem_singleton] at h
    subst h
    simp only [pmsgEH] at hc
    exact absurd hc (by decide)

/-- Extra-dimension messages never carry the duplicate-name code. -/
theorem validateExtraDims_no_dup (pn : String) :
    ∀ (dims : List ExtraDim) (acc : List (String × ExtraDim)) (msg : VMessage),
      msg ∈ (validateExtraDims pn dims acc).1 →
      msg.code ≠ ("duplicate_measurement_name")
  | [], _, msg, h => absurd h (List.not_mem_nil msg)
  | dim :: rest, acc, msg, h => by
      intro hc
      simp only [validateExtraDims] at h
      split at h
      · rcases hrec : validateExtraDims pn rest acc with ⟨ms, acc2⟩
        rw [hrec] at h
        dsimp only at h
        rcases List.mem_cons.mp h with h1 | h1
        · subst h1
          simp only [pmsgE] at hc
          exact absurd hc (by decide)
        · exact validateExtraDims_no_dup pn rest acc msg (by rw [hrec]; exact h1) hc
      · rcases hrec : validateExtraDims pn rest (acc ++ [(dim.name, dim)]) with ⟨ms, acc2⟩
        rw [hrec] at h
        dsimp only at h
        rcases List.mem_append.mp h with h1 | h1
        · rw [List.mem_flatMap] at h1
          rcases h1 with ⟨v, _, h1⟩
          split at h1
          · exact absurd h1 (List.not_mem_nil msg)
          · rw [List.mem_singleton] at h1
            subst h1
            simp only [pmsgE] at hc
            exact absurd hc (by decide)
        · exact validateExtraDims_no_dup pn rest _ msg (by rw [hrec]; exact h1) hc

/-- Load-hint dimension messages never carry the duplicate-name code. -/
theorem loadHintDimMsgs_no_dup (sec : LoadSection) (dims : List String)
    (msg : VMessage) (h : msg ∈ loadHintDimMsgs sec dims) :
    msg.code ≠ ("duplicate_measurement_name") := by
  intro hc
  unfold loadHintDimMsgs at h
  rcases List.mem_append.mp h with h | h
  · split at h
    · rw [List.mem_flatMap] at h
      rcases h with ⟨dn, _, h⟩
      split at h
      · rw [List.mem_singleton] at h
        subst h
        simp only [pmsgEH] at hc
        exact absurd hc (by decide)
      · split at h
        · rw [List.mem_singleton] at h
          subst h
          simp only [pmsgWH] at hc
          exact absurd hc (by decide)
        · exact absurd h (List.not_mem_nil msg)
      · rw [List.mem_singleton] at h
        subst h
        simp only [pmsgEH] at hc
        exact absurd hc (by decide)
    · exact absurd h (List.not_mem_nil msg)
  · rw [List.mem_flatMap] at h
    rcases h with ⟨dn, _, h⟩
    split at h
    · rw [List.mem_singleton] at h
      subst h
      simp only [pmsgEH] at hc
      exact absurd hc (by decide)
    · exact absurd h (List.not_mem_nil msg)
    · rw [List.mem_singleton] at h
      subst h
      simp only [pmsgEH] at hc
      exact absurd hc (by decide)

/-- Load-hint messages never carry the duplicate-name code. -/
theorem validateLoadHints_no_dup (crsDims : String → Option (List String))
    (p : ProductDoc) (msg : VMessage) (h : msg ∈ validateLoadHints crsDims p) :
    msg.code ≠ ("duplicate_measurement_name") := by
  intro hc
  simp only [validateLoadHints] at h
  rcases List.mem_append.mp h with h | h
  · split at h
    · rw [List.mem_singleton] at h
      subst h
      simp only [pmsgWH] at hc
      exact absurd hc (by decide)
    · split at h
      · rcases List.mem_append.mp h with h1 | h1
        · rw [List.mem_singleton] at h1
          subst h1
          simp only [pmsgW] at hc
          exact absurd hc (by decide)
        · split at h1
          · rw [List.mem_singleton] at h1
            subst h1
            simp only [pmsgW] at hc
            exact absurd hc (by decide)
          · exact absurd h1 (List.not_mem_nil msg)
      · exact absurd h (List.not_mem_nil msg)
  · split at h
    · exact absurd h (List.not_mem_nil msg)
    · split at h
      · rw [List.mem_singleton] at h
        subst h
        simp only [pmsgEH] at hc
        exact absurd hc (by decide)
      · split at h
        · rw [List.mem_singleton] at h
          subst h
          simp only [pmsgEH] at hc
          exact absurd hc (by decide)
        · exact absurd hc (loadHintDimMsgs_no_dup _ _ msg h)

/-- With a clean schema and a nonempty measurement list, the measurement
loop's messages appear in `validate_product`. -/
theorem validate_product_mem_run (crsDims : String → Option (List String))
    (p : ProductDoc) (mh : PMeasurement) (mt : List PMeasurement)
    (hms : p.measurements = some (mh :: mt)) (msg : VMessage)
    (h : msg ∈ runMeasurements (validateExtraDims p.name p.extraDimensions []).2
          (mh :: mt) []) :
    msg ∈ validate_product [] crsDims p := by
  simp only [validate_product, List.map_nil, List.isEmpty_nil, Bool.not_true,
    Bool.false_eq_true, if_false]
  rw [hms]
  exact List.mem_append.mpr (Or.inr h)

/-- With a clean schema, any duplicate-name-coded message of
`validate_product` comes from the measurement loop. -/
theorem validate_product_dup_src (crsDims : String → Option (List String))
    (p : ProductDoc) (ms : List PMeasurement) (hms : p.measurements = some ms)
    (msg : VMessage) (h : msg ∈ validate_product [] crsDims p)
    (hc : msg.code = ("duplicate_measurement_name")) :
    msg ∈ runMeasurements (validateExtraDims p.name p.extraDimensions []).2 ms [] := by
  simp only [validate_product, List.map_nil, List.isEmpty_nil, Bool.not_true,
    Bool.false_eq_true, if_false] at h
  rw [hms] at h
  rcases List.mem_append.mp h with h | h
  · rcases List.mem_append.mp h with h | h
    · rcases List.mem_append.mp h with h | h
      · rcases List.mem_append.mp h with h | h
        · rcases List.mem_append.mp h with h | h
          · rcases List.mem_append.mp h with h | h
            · split at h
              · rw [List.mem_singleton] at h
                subst h
                simp only [pmsgWH] at hc
                exact absurd hc (by decide)
              · exact absurd h (List.not_mem_nil msg)
            · split at h
              · rw [List.mem_singleton] at h
                subst h
                simp only [pmsgW] at hc
                exact absurd hc (by decide)
              · exact absurd h (List.not_mem_nil msg)
          · exact absurd hc (validateProductMetadata_no_dup _ _ msg h)
        · exact absurd hc (validateExtraDims_no_dup _ _ _ msg h)
      · exact absurd hc (validateLoadHints_no_dup _ _ msg h)
    · split at h
      · rw [List.mem_singleton] at h
        subst h
        simp only [pmsgW] at hc
        exact absurd hc (by decide)
      · exact absurd h (List.not_mem_nil msg)
  · match ms with
    | [] =>
        rw [List.mem_singleton] at h
        subst h
        simp only [pmsgW] at hc
        exact absurd hc (by decide)
    | m :: rest => exact h

/-- Claim C9: for every product definition in which some name occurs as
the name or alias of more than one measurement, `validate_product` yields
an error-level message with code `duplicate_measurement_name` mentioning
that name; a product whose measurement names and aliases are all globally
unique yields no such error; and a name repeated only within a single
measurement's own name-and-alias list yields an info-level
`duplicate_alias_name` message mentioning it and no
`duplicate_measurement_name` error about it. -/
theorem claim_C9 (crsDims : String → Option (List String)) (p : ProductDoc)
    (ms : List PMeasurement) (hms : p.measurements = some ms) :
    (∀ (n : String) (l1 l2 l3 : List PMeasurement) (m1 m2 : PMeasurement),
       ms = l1 ++ m1 :: l2 ++ m2 :: l3 → n ∈ namesOf m1 → n ∈ namesOf m2 →
       ∃ msg ∈ validate_product [] crsDims p,
         msg.level = Level.error ∧ msg.code = ("duplicate_measurement_name") ∧
         msg.reason = dupNameReason n) ∧
    ((ms.flatMap namesOf).Nodup →
       ∀ msg ∈ validate_product [] crsDims p,
         msg.code ≠ ("duplicate_measurement_name")) ∧
    (∀ (n : String) (l1 l2 : List PMeasurement) (m1 : PMeasurement),
       ms = l1 ++ m1 :: l2 → 2 ≤ List.count n (namesOf m1) →
       n ∉ (l1 ++ l2).flatMap namesOf →
       (∃ msg ∈ validate_product [] crsDims p,
          msg.level = Level.info ∧ msg.code = ("duplicate_alias_name") ∧
          msg.reason = ("Measurement ") ++ m1.name ++
            (" has a duplicate alias named ") ++ n) ∧
       ∀ msg ∈ validate_product [] crsDims p,
         msg.code = ("duplicate_measurement_name") →
           msg.reason ≠ dupNameReason n) := by
  refine ⟨?_, ?_, ?_⟩
  · intro n l1 l2 l3 m1 m2 hsplit hn1 hn2
    subst hsplit
    rcases run_dup_exists (validateExtraDims p.name p.extraDimensions []).2 []
      n l1 l2 l3 m1 m2 hn1 hn2 with ⟨msg, hm, hp⟩
    refine ⟨msg, ?_, hp⟩
    cases l1 with
    | nil => exact validate_product_mem_run crsDims p m1 (l2 ++ m2 :: l3) hms msg hm
    | cons a t =>
        exact validate_product_mem_run crsDims p a (t ++ m1 :: l2 ++ m2 :: l3) hms msg hm
  · intro hnodup msg hmem hc
    exact run_nodup _ ms [] (fun n _ => rfl) hnodup msg
      (validate_product_dup_src crsDims p ms hms msg hmem hc) hc
  · intro n l1 l2 m1 hsplit hcount hout
    subst hsplit
    constructor
    · rcases run_alias_exists (validateExtraDims p.name p.extraDimensions []).2 []
        n l1 l2 m1 hcount with ⟨msg, hm, hp⟩
      refine ⟨msg, ?_, hp⟩
      cases l1 with
      | nil => exact validate_product_mem_run crsDims p m1 l2 hms msg hm
      | cons a t =>
          exact validate_product_mem_run crsDims p a (t ++ m1 :: l2) hms msg hm
    · intro msg hmem hc
      exact run_no_dup_reason _ n (l1 ++ m1 :: l2) [] rfl
        (countP_le_one_of_once n l1 l2 m1 hout) msg
        (validate_product_dup_src crsDims p _ hms msg hmem hc) hc

theorem claim_C9_witness :
    pW9.measurements = some [mW9a, mW9b] ∧
    ∃ msg ∈ validate_product [] (fun _ => none) pW9,
      msg.level = Level.error ∧ msg.code = ("duplicate_measurement_name") ∧
      msg.reason = dupNameReason ("blue") := by
  refine ⟨rfl, ?_⟩
  exact (claim_C9 (fun _ => none) pW9 [mW9a, mW9b] rfl).1 ("blue") [] [] [] mW9a mW9b
    rfl (by simp [namesOf, mW9a]) (by simp [namesOf, mW9b])

/-! ## C8: `numpy_value_fits_dtype` (`eo3/product/validate.py`) -/

theorem twoValGo_odd (fuel n : Nat) (h : n % 2 = 1) : twoValGo fuel n = 0 := by
  cases fuel with
  | zero => rfl
  | succ f => simp [twoValGo, h]

theorem twoValGo_spec :
    ∀ (fuel n : Nat), n ≠ 0 → n ≤ fuel →
      2 ^ twoValGo fuel n ∣ n ∧ (n / 2 ^ twoValGo fuel n) % 2 = 1
  | 0, n, hn, hle => absurd (Nat.le_zero.mp hle) hn
  | fuel + 1, n, hn, hle => by
      by_cases he : n % 2 = 0
      · have hcond : (n % 2 == 0 && n != 0) = true := by
          simp [he, hn]
        have hhalf : n / 2 ≠ 0 := by omega
        have hhle : n / 2 ≤ fuel := by omega
        obtain ⟨hdvd, hodd⟩ := twoValGo_spec fuel (n / 2) hhalf hhle
        have hstep : twoValGo (fuel + 1) n = twoValGo fuel (n / 2) + 1 := by
          simp [twoValGo, hcond]
        rw [hstep]
        constructor
        · have h2 : 2 * (n / 2) = n := by omega
          have hd2 : 2 * 2 ^ twoValGo fuel (n / 2) ∣ 2 * (n / 2) :=
            mul_dvd_mul_left 2 hdvd
          rw [h2] at hd2
          rw [pow_succ]
          rwa [Nat.mul_comm 2 (2 ^ twoValGo fuel (n / 2))] at hd2
        · have h2 : n / 2 ^ (twoValGo fuel (n / 2) + 1) = (n / 2) / 2 ^ twoValGo fuel (n / 2) := by
            rw [pow_succ, Nat.mul_comm, ← Nat.div_div_eq_div_mul]
          rw [h2]
          exact hodd
      · have h1 : n % 2 = 1 := by omega
        rw [twoValGo_odd (fuel + 1) n h1]
        simpa using h1

theorem twoVal_spec (n : Nat) (hn : n ≠ 0) :
    2 ^ twoVal n ∣ n ∧ (n / 2 ^ twoVal n) % 2 = 1 :=
  twoValGo_spec n n hn (le_refl n)

theorem le_twoVal_of_dvd (n : Nat) (k : Nat) (hn : n ≠ 0) (h : 2 ^ k ∣ n) :
    k ≤ twoVal n := by
  by_contra hlt
  push_neg at hlt
  obtain ⟨hdvd, hodd⟩ := twoVal_spec n hn
  have h1 : 2 ^ (twoVal n + 1) ∣ n := dvd_trans (pow_dvd_pow 2 hlt) h
  obtain ⟨c, hc⟩ := h1
  have hx : n = 2 * c * 2 ^ twoVal n := by
    calc n = 2 ^ (twoVal n + 1) * c := hc
      _ = 2 * c * 2 ^ twoVal n := by ring
  have h2 : n / 2 ^ twoVal n = 2 * c :=
    Nat.div_eq_of_eq_mul_left (by positivity) hx
  omega

-- odd-part uniqueness over ℚ

theorem oddNat_zpow_le (a b : Nat) (i j : Int) (hij : i ≤ j) (ha : a % 2 = 1)
    (h : (a : ℚ) * 2 ^ i = (b : ℚ) * 2 ^ j) : a = b * 2 ^ (j - i).toNat := by
  have h2 : (2 : ℚ) ^ i ≠ 0 := zpow_ne_zero i (by norm_num)
  have hs : (a : ℚ) = (b : ℚ) * 2 ^ (j - i) := by
    have := congrArg (fun q => q * 2 ^ (-i)) h
    simp only at this
    rw [mul_assoc, mul_assoc, ← zpow_add₀ (by norm_num : (2:ℚ) ≠ 0),
      ← zpow_add₀ (by norm_num : (2:ℚ) ≠ 0)] at this
    simpa [add_neg_cancel] using this
  have hnn : (0:Int) ≤ j - i := by omega
  rw [show j - i = ((j - i).toNat : Int) from (Int.toNat_of_nonneg hnn).symm] at hs
  rw [zpow_natCast] at hs
  have : ((a : ℚ)) = ((b * 2 ^ (j - i).toNat : ℕ) : ℚ) := by push_cast; exact hs
  exact_mod_cast this

theorem oddNat_zpow_inj (a b : Nat) (i j : Int) (ha : a % 2 = 1) (hb : b % 2 = 1)
    (h : (a : ℚ) * 2 ^ i = (b : ℚ) * 2 ^ j) : a = b ∧ i = j := by
  rcases le_total i j with hij | hij
  · have hk := oddNat_zpow_le a b i j hij ha h
    by_cases hz : (j - i).toNat = 0
    · rw [hz] at hk
      simp at hk
      exact ⟨hk, by omega⟩
    · exfalso
      obtain ⟨p, hp⟩ := Nat.exists_eq_succ_of_ne_zero hz
      have h2 : 2 ∣ a := ⟨b * 2 ^ p, by rw [hk, hp, pow_succ]; ring⟩
      omega
  · have hk := oddNat_zpow_le b a j i hij hb h.symm
    by_cases hz : (i - j).toNat = 0
    · rw [hz] at hk
      simp at hk
      exact ⟨hk.symm, by omega⟩
    · exfalso
      obtain ⟨p, hp⟩ := Nat.exists_eq_succ_of_ne_zero hz
      have h2 : 2 ∣ b := ⟨a * 2 ^ p, by rw [hk, hp, pow_succ]; ring⟩
      omega

theorem valQ_abs (m e : Int) : |valQ m e| = (m.natAbs : ℚ) * 2 ^ e := by
  rw [valQ, abs_mul, abs_of_pos (zpow_pos (by norm_num : (0:ℚ) < 2) e)]
  congr 1
  simp [Int.cast_natAbs, Int.cast_abs]

theorem natAbs_oddpart (m : Int) (hm : m ≠ 0) :
    (m.natAbs : ℚ) =
      ((m.natAbs / 2 ^ twoVal m.natAbs : ℕ) : ℚ) * 2 ^ (twoVal m.natAbs : Int) ∧
    (m.natAbs / 2 ^ twoVal m.natAbs) % 2 = 1 := by
  have hna : m.natAbs ≠ 0 := Int.natAbs_ne_zero.mpr hm
  obtain ⟨hdvd, hodd⟩ := twoVal_spec m.natAbs hna
  refine ⟨?_, hodd⟩
  have h1 : m.natAbs / 2 ^ twoVal m.natAbs * 2 ^ twoVal m.natAbs = m.natAbs :=
    Nat.div_mul_cancel hdvd
  rw [zpow_natCast]
  rw [show ((2:ℚ)) ^ (twoVal m.natAbs) = ((2 ^ twoVal m.natAbs : ℕ) : ℚ) by push_cast; ring]
  rw [← Nat.cast_mul, h1]

theorem valQ_eq_oddpart (m e : Int) (hm : m ≠ 0) :
    |valQ m e| = ((m.natAbs / 2 ^ twoVal m.natAbs : ℕ) : ℚ) *
      2 ^ (e + (twoVal m.natAbs : Int)) := by
  rw [valQ_abs, (natAbs_oddpart m hm).1, mul_assoc,
    ← zpow_add₀ (by norm_num : (2:ℚ) ≠ 0)]
  ring_nf

theorem valQ_ne_zero (m e : Int) (hm : m ≠ 0) : valQ m e ≠ 0 := by
  rw [valQ]
  exact mul_ne_zero (by exact_mod_cast hm) (zpow_ne_zero e (by norm_num))

theorem valQ_cast_eq (m e : Int) (c : Int) (v : Nat)
    (hc : m = ((2 ^ v : ℕ) : ℤ) * c) : valQ m e = (c : ℚ) * 2 ^ (e + (v : Int)) := by
  rw [valQ]
  have h1 : ((m : ℚ)) = ((2 ^ v : ℕ) : ℚ) * (c : ℚ) := by
    rw [hc]
    push_cast
    ring
  rw [h1]
  rw [show ((2 ^ v : ℕ) : ℚ) = (2 : ℚ) ^ (v : Int) by push_cast; rw [zpow_natCast]]
  rw [zpow_add₀ (by norm_num : (2:ℚ) ≠ 0)]
  ring

theorem repFloat_iff (p : Nat) (emin : Int) (m e : Int) (hm : m ≠ 0) :
    repFloat p emin (valQ m e) ↔
      (m.natAbs / 2 ^ twoVal m.natAbs < 2 ^ p ∧
        emin ≤ e + (twoVal m.natAbs : Int)) := by
  constructor
  · rintro ⟨m2, e2, heq, hlt, hemin⟩
    have hm2 : m2 ≠ 0 := by
      intro h0
      rw [h0] at heq
      simp at heq
      exact valQ_ne_zero m e hm heq
    have habs : |valQ m e| = |valQ m2 e2| := by
      rw [heq]
      rfl
    rw [valQ_eq_oddpart m e hm, valQ_eq_oddpart m2 e2 hm2] at habs
    obtain ⟨heq2, hexp⟩ := oddNat_zpow_inj _ _ _ _
      (natAbs_oddpart m hm).2 (natAbs_oddpart m2 hm2).2 habs
    constructor
    · rw [heq2]
      calc m2.natAbs / 2 ^ twoVal m2.natAbs ≤ m2.natAbs := Nat.div_le_self _ _
        _ < 2 ^ p := hlt
    · omega
  · rintro ⟨hlt, hemin⟩
    have hna : m.natAbs ≠ 0 := Int.natAbs_ne_zero.mpr hm
    have hdvdN : 2 ^ twoVal m.natAbs ∣ m.natAbs := (twoVal_spec m.natAbs hna).1
    have hdvdZ : ((2 ^ twoVal m.natAbs : ℕ) : ℤ) ∣ m := by
      refine dvd_trans ?_ (Int.natAbs_dvd.mpr dvd_rfl)
      exact_mod_cast Int.natCast_dvd_natCast.mpr hdvdN
    obtain ⟨c, hc⟩ := hdvdZ
    refine ⟨c, e + (twoVal m.natAbs : Int), valQ_cast_eq m e c _ hc, ?_, hemin⟩
    have hnac : m.natAbs = 2 ^ twoVal m.natAbs * c.natAbs := by
      have h2 : m.natAbs = (((2 ^ twoVal m.natAbs : ℕ) : ℤ) * c).natAbs :=
        congrArg Int.natAbs hc
      rw [Int.natAbs_mul] at h2
      simpa [Int.natAbs_pow] using h2
    have h3 : m.natAbs / 2 ^ twoVal m.natAbs = c.natAbs :=
      Nat.div_eq_of_eq_mul_left (Nat.two_pow_pos _)
        (by calc m.natAbs = 2 ^ twoVal m.natAbs * c.natAbs := hnac
              _ = c.natAbs * 2 ^ twoVal m.natAbs := Nat.mul_comm _ _)
    omega

theorem zpow_toNat (e : Int) (he : 0 ≤ e) :
    (2:ℚ) ^ e = ((2 ^ e.toNat : ℕ) : ℚ) := by
  calc (2:ℚ) ^ e = (2:ℚ) ^ (e.toNat : Int) := by rw [Int.toNat_of_nonneg he]
    _ = ((2 ^ e.toNat : ℕ) : ℚ) := by rw [zpow_natCast]; push_cast; ring

theorem magLtB_iff (m e : Int) (b : Nat) :
    magLtB m e b = true ↔ |valQ m e| < (2:ℚ) ^ (b : Int) := by
  rw [valQ_abs, magLtB]
  split
  · rename_i he
    rw [decide_eq_true_iff]
    rw [zpow_toNat e he, zpow_toNat (b : Int) (by positivity)]
    rw [Int.toNat_natCast]
    rw [← Nat.cast_mul]
    exact Nat.cast_lt.symm
  · rename_i he
    rw [decide_eq_true_iff]
    have hpos : (0:ℚ) < (2:ℚ) ^ e := zpow_pos (by norm_num) e
    have h1 : (m.natAbs : ℚ) * (2:ℚ) ^ e < (2:ℚ) ^ (b : Int) ↔
        (m.natAbs : ℚ) < (2:ℚ) ^ ((b : Int) - e) := by
      rw [zpow_sub₀ (by norm_num : (2:ℚ) ≠ 0)]
      exact (lt_div_iff₀ hpos).symm
    rw [h1]
    rw [show ((b : Int) - e) = (((b + (-e).toNat : ℕ) : Int)) by push_cast; omega]
    rw [zpow_natCast]
    rw [show ((2:ℚ)) ^ (b + (-e).toNat) = ((2 ^ (b + (-e).toNat) : ℕ) : ℚ) by push_cast; ring]
    exact Nat.cast_lt.symm

theorem fitsF32pair_iff (m e : Int) :
    fitsF32pair m e = true ↔ repFin 24 (-149) 127 (valQ m e) := by
  by_cases hm : m = 0
  · subst hm
    simp only [fitsF32pair, if_pos rfl]
    constructor
    · intro _
      constructor
      · exact ⟨0, 0, by simp [valQ], by norm_num, by norm_num⟩
      · rw [show valQ 0 e = 0 by simp [valQ]]
        rw [abs_zero]
        positivity
    · intro _
      rfl
  · simp only [fitsF32pair, if_neg hm, Bool.and_eq_true, decide_eq_true_iff]
    rw [magLtB_iff]
    simp only [repFin]
    rw [repFloat_iff 24 (-149) m e hm]
    constructor
    · rintro ⟨⟨h1, h2⟩, h3⟩
      refine ⟨⟨h1, h2⟩, ?_⟩
      convert h3 using 2
    · rintro ⟨⟨h1, h2⟩, h3⟩
      refine ⟨⟨h1, h2⟩, ?_⟩
      convert h3 using 2

theorem toIntQ_correct (m e : Int) (z : Int) (h : toIntQ m e = some z) :
    (z : ℚ) = valQ m e := by
  rw [toIntQ] at h
  split at h
  · rename_i he
    rw [Option.some.injEq] at h
    subst h
    rw [valQ, zpow_toNat e he]
    push_cast
    ring
  · rename_i he
    split at h
    · rename_i hdvd
      rw [Option.some.injEq] at h
      subst h
      have hd : ((2 ^ (-e).toNat : ℕ) : Int) ∣ m := by
        push_cast
        exact Int.dvd_of_emod_eq_zero hdvd
      obtain ⟨c, hc⟩ := hd
      have hzc : m / (2 ^ (-e).toNat : Int) = c := by
        rw [show ((2:Int)) ^ (-e).toNat = (((2 ^ (-e).toNat : ℕ)) : Int) by push_cast; ring]
        rw [hc]
        exact Int.mul_ediv_cancel_left _ (by positivity)
      rw [hzc]
      have hmq : (m : ℚ) = (c : ℚ) * 2 ^ ((-e).toNat : Int) := by
        rw [hc]
        push_cast
        rw [zpow_natCast]
        ring
      rw [valQ, hmq, mul_assoc, ← zpow_add₀ (by norm_num : (2:ℚ) ≠ 0)]
      rw [show (((-e).toNat : Int) + e) = 0 by omega]
      simp
    · exact absurd h (by simp)

theorem toIntQ_none (m e : Int) (h : toIntQ m e = none) (z : Int) :
    (z : ℚ) ≠ valQ m e := by
  rw [toIntQ] at h
  split at h
  · exact absurd h (by simp)
  · rename_i he
    split at h
    · exact absurd h (by simp)
    · rename_i hnd
      intro heq
      apply hnd
      have h1 : ((z * 2 ^ (-e).toNat : Int) : ℚ) = (m : ℚ) := by
        push_cast
        rw [heq, valQ, mul_assoc]
        rw [show ((2:ℚ)) ^ ((-e).toNat) = (2:ℚ) ^ (((-e).toNat : Int)) by rw [zpow_natCast]]
        rw [← zpow_add₀ (by norm_num : (2:ℚ) ≠ 0)]
        rw [show (e + ((-e).toNat : Int)) = 0 by omega]
        simp
      have h2 : z * 2 ^ (-e).toNat = m := by exact_mod_cast h1
      exact Int.emod_eq_zero_of_dvd ⟨z, by rw [← h2]; ring⟩

theorem rhe_spec (k : Nat) (n : Int) :
    (rhe k n = (n / (2 ^ k : Int)) * 2 ^ k ∧
        2 * (n % (2 ^ k : Int)) ≤ 2 ^ k) ∨
    (rhe k n = (n / (2 ^ k : Int) + 1) * 2 ^ k ∧
        (2 ^ k : Int) ≤ 2 * (n % (2 ^ k : Int))) := by
  have hdp : (0:Int) < 2 ^ k := by positivity
  have hrw : rhe k n =
      (if 2 * (n - n / (2 ^ k : Int) * 2 ^ k) < 2 ^ k then n / (2 ^ k : Int)
       else if (2 ^ k : Int) < 2 * (n - n / (2 ^ k : Int) * 2 ^ k) then
         n / (2 ^ k : Int) + 1
       else if (n / (2 ^ k : Int)) % 2 = 0 then n / (2 ^ k : Int)
       else n / (2 ^ k : Int) + 1) * 2 ^ k := by
    simp only [rhe]
    rw [Int.fdiv_eq_ediv n (le_of_lt hdp)]
  have hmod : n - n / (2 ^ k : Int) * 2 ^ k = n % (2 ^ k : Int) := by
    rw [Int.emod_def]
    ring
  rw [hmod] at hrw
  rw [hrw]
  rcases lt_trichotomy (2 * (n % (2 ^ k : Int))) ((2 ^ k : Int)) with h | h | h
  · left
    rw [if_pos h]
    exact ⟨rfl, le_of_lt h⟩
  · by_cases hq : (n / (2 ^ k : Int)) % 2 = 0
    · left
      rw [if_neg (by omega), if_neg (by omega), if_pos hq]
      exact ⟨rfl, by omega⟩
    · right
      rw [if_neg (by omega), if_neg (by omega), if_neg hq]
      exact ⟨rfl, by omega⟩
  · right
    rw [if_neg (by omega), if_pos h]
    exact ⟨rfl, le_of_lt h⟩

theorem rhe_dvd (k : Nat) (n : Int) (h : (2 ^ k : Int) ∣ n) : rhe k n = n := by
  have hdp : (0:Int) < 2 ^ k := by positivity
  have hr : n % (2 ^ k : Int) = 0 := Int.emod_eq_zero_of_dvd h
  rcases rhe_spec k n with ⟨heq, _⟩ | ⟨_, hge⟩
  · rw [heq, Int.ediv_mul_cancel h]
  · rw [hr] at hge
    omega

theorem rhe_mult (k : Nat) (n : Int) : (2 ^ k : Int) ∣ rhe k n := by
  rcases rhe_spec k n with ⟨heq, _⟩ | ⟨heq, _⟩ <;> exact ⟨_, heq.trans (mul_comm _ _)⟩

theorem rhe_bounds (k : Nat) (n M : Int) (hdvd : (2 ^ k : Int) ∣ M)
    (h1 : -M ≤ n) (h2 : n ≤ M) : -M ≤ rhe k n ∧ rhe k n ≤ M := by
  have hdp : (0:Int) < 2 ^ k := by positivity
  obtain ⟨t, ht⟩ := hdvd
  have hr0 : 0 ≤ n % (2 ^ k : Int) := Int.emod_nonneg n (by positivity)
  have hrd : n % (2 ^ k : Int) < 2 ^ k := Int.emod_lt_of_pos n hdp
  have hmod : n / (2 ^ k : Int) * 2 ^ k = n - n % (2 ^ k : Int) := by
    rw [Int.emod_def]
    ring
  have hqlow : -t ≤ n / (2 ^ k : Int) := by
    have hle : (-M) / (2 ^ k : Int) ≤ n / (2 ^ k : Int) := Int.ediv_le_ediv hdp h1
    rwa [show -M = (2 ^ k : Int) * (-t) by rw [ht]; ring,
      Int.mul_ediv_cancel_left _ (ne_of_gt hdp)] at hle
  have hqup : n / (2 ^ k : Int) ≤ t := by
    have hle : n / (2 ^ k : Int) ≤ M / (2 ^ k : Int) := Int.ediv_le_ediv hdp h2
    rwa [ht, Int.mul_ediv_cancel_left _ (ne_of_gt hdp)] at hle
  rcases rhe_spec k n with ⟨heq, _⟩ | ⟨heq, hge⟩
  · constructor
    · rw [heq]
      calc -M = (-t) * 2 ^ k := by rw [ht]; ring
        _ ≤ n / (2 ^ k : Int) * 2 ^ k :=
          mul_le_mul_of_nonneg_right hqlow (le_of_lt hdp)
    · rw [heq]
      calc n / (2 ^ k : Int) * 2 ^ k ≤ t * 2 ^ k :=
          mul_le_mul_of_nonneg_right hqup (le_of_lt hdp)
        _ = M := by rw [ht]; ring
  · have hrpos : 0 < n % (2 ^ k : Int) := by omega
    have hql : n / (2 ^ k : Int) * 2 ^ k < M := by omega
    have hqlt : n / (2 ^ k : Int) < t := by
      rw [ht, mul_comm (n / (2 ^ k : Int)) ((2 ^ k : Int))] at hql
      exact lt_of_mul_lt_mul_left hql (le_of_lt hdp)
    constructor
    · rw [heq]
      calc -M = (-t) * 2 ^ k := by rw [ht]; ring
        _ ≤ (n / (2 ^ k : Int) + 1) * 2 ^ k :=
          mul_le_mul_of_nonneg_right (by omega) (le_of_lt hdp)
    · rw [heq]
      calc (n / (2 ^ k : Int) + 1) * 2 ^ k ≤ t * 2 ^ k :=
          mul_le_mul_of_nonneg_right (by omega) (le_of_lt hdp)
        _ = M := by rw [ht]; ring

theorem log2F_eq : ∀ (fuel n : Nat), n ≤ fuel → log2F fuel n = Nat.log 2 n
  | 0, n, hle => by
      have hn : n = 0 := by omega
      subst hn
      simp [log2F]
  | fuel + 1, n, hle => by
      by_cases h2 : n < 2
      · simp only [log2F, if_pos h2]
        rw [Nat.log_of_lt h2]
      · simp only [log2F, if_neg h2]
        have hrec : n / 2 ≤ fuel := by omega
        rw [log2F_eq fuel (n / 2) hrec]
        rw [← Nat.log_of_one_lt_of_le (by norm_num) (by omega)]

theorem nlog2_eq (n : Nat) : nlog2 n = Nat.log 2 n := log2F_eq n n (le_refl n)

theorem int_pow2_dvd (k : Nat) (n : Int) : ((2 ^ k : Int) ∣ n) ↔ 2 ^ k ∣ n.natAbs := by
  rw [← Int.natAbs_dvd_natAbs]
  constructor <;> intro h <;> simpa [Int.natAbs_pow] using h

theorem roundSig_id_of_lt (p : Nat) (n : Int) (h : n.natAbs < 2 ^ p) :
    roundSig p n = n := by
  rw [roundSig, if_pos h]

theorem roundSig_id_of_le (p : Nat) (hp : 1 ≤ p) (n : Int) (h : n.natAbs ≤ 2 ^ p) :
    roundSig p n = n := by
  rcases Nat.lt_or_ge n.natAbs (2 ^ p) with hlt | hge
  · exact roundSig_id_of_lt p n hlt
  · have heq : n.natAbs = 2 ^ p := by omega
    rw [roundSig, if_neg (by omega), nlog2_eq]
    have hlog : Nat.log 2 n.natAbs = p := by
      rw [heq]
      exact Nat.log_pow (by norm_num) p
    rw [hlog, show p + 1 - p = 1 by omega]
    apply rhe_dvd
    rw [int_pow2_dvd, heq, pow_one]
    exact dvd_pow_self 2 (by omega)

theorem roundSig_bound (p : Nat) (b : Nat) (hp : 1 ≤ p) (hpb : p ≤ b) (n : Int)
    (h : n.natAbs ≤ 2 ^ b) : (roundSig p n).natAbs ≤ 2 ^ b := by
  rcases Nat.lt_or_ge n.natAbs (2 ^ p) with hlt | hge
  · rw [roundSig_id_of_lt p n hlt]
    exact h
  · rw [roundSig, if_neg (by omega), nlog2_eq]
    have hlogle : Nat.log 2 n.natAbs ≤ b := by
      calc Nat.log 2 n.natAbs ≤ Nat.log 2 (2 ^ b) := Nat.log_mono_right h
        _ = b := Nat.log_pow (by norm_num) b
    have hk : Nat.log 2 n.natAbs + 1 - p ≤ b := by
      have hple : p ≤ Nat.log 2 n.natAbs := by
        rcases Nat.eq_zero_or_pos p with hp0 | hp0
        · omega
        · exact (Nat.pow_le_iff_le_log (by norm_num)
            (by have := Nat.two_pow_pos p; omega : n.natAbs ≠ 0)).mp hge
      omega
    have hMb : ((2:Int) ^ (Nat.log 2 n.natAbs + 1 - p)) ∣ (2:Int) ^ b :=
      pow_dvd_pow 2 hk
    have hbounds : -(2:Int) ^ b ≤ n ∧ n ≤ (2:Int) ^ b := by
      refine abs_le.mp ?_
      rw [Int.abs_eq_natAbs]
      exact_mod_cast h
    have hres := rhe_bounds (Nat.log 2 n.natAbs + 1 - p) n ((2:Int) ^ b) hMb
      hbounds.1 hbounds.2
    have habs2 : |rhe (Nat.log 2 n.natAbs + 1 - p) n| ≤ (2:Int) ^ b := abs_le.mpr hres
    rw [Int.abs_eq_natAbs] at habs2
    exact_mod_cast habs2

theorem roundSig_fix_iff (p : Nat) (hp : 1 ≤ p) (n : Int) (hn : n ≠ 0) :
    roundSig p n = n ↔ n.natAbs / 2 ^ twoVal n.natAbs < 2 ^ p := by
  have hna : n.natAbs ≠ 0 := Int.natAbs_ne_zero.mpr hn
  rcases Nat.lt_or_ge n.natAbs (2 ^ p) with hlt | hge
  · constructor
    · intro _
      calc n.natAbs / 2 ^ twoVal n.natAbs ≤ n.natAbs := Nat.div_le_self _ _
        _ < 2 ^ p := hlt
    · intro _
      exact roundSig_id_of_lt p n hlt
  · have hple : p ≤ Nat.log 2 n.natAbs :=
      (Nat.pow_le_iff_le_log (by norm_num) hna).mp hge
    have hklog : Nat.log 2 n.natAbs + 1 - p + p = Nat.log 2 n.natAbs + 1 := by omega
    rw [roundSig, if_neg (by omega), nlog2_eq]
    constructor
    · intro hfix
      have hdvdn : ((2:Int) ^ (Nat.log 2 n.natAbs + 1 - p)) ∣ n := by
        have hd := rhe_mult (Nat.log 2 n.natAbs + 1 - p) n
        rwa [hfix] at hd
      rw [int_pow2_dvd] at hdvdn
      have hkv : Nat.log 2 n.natAbs + 1 - p ≤ twoVal n.natAbs :=
        le_twoVal_of_dvd n.natAbs _ hna hdvdn
      have hd1 : n.natAbs / 2 ^ twoVal n.natAbs ≤
          n.natAbs / 2 ^ (Nat.log 2 n.natAbs + 1 - p) :=
        Nat.div_le_div_left (Nat.pow_le_pow_right (by norm_num) hkv) (by positivity)
      have hd2 : n.natAbs / 2 ^ (Nat.log 2 n.natAbs + 1 - p) < 2 ^ p := by
        rw [Nat.div_lt_iff_lt_mul (by positivity)]
        calc n.natAbs < 2 ^ (Nat.log 2 n.natAbs + 1) :=
              Nat.lt_pow_succ_log_self (by norm_num) _
          _ = 2 ^ p * 2 ^ (Nat.log 2 n.natAbs + 1 - p) := by
              rw [← pow_add]
              congr 1
              omega
      omega
    · intro hlt2
      have hvk : Nat.log 2 n.natAbs + 1 - p ≤ twoVal n.natAbs := by
        by_contra hc
        push_neg at hc
        have hdvd := (twoVal_spec n.natAbs hna).1
        have heqd : n.natAbs = 2 ^ twoVal n.natAbs * (n.natAbs / 2 ^ twoVal n.natAbs) :=
          (Nat.mul_div_cancel' hdvd).symm
        have hlt3 : n.natAbs < 2 ^ twoVal n.natAbs * 2 ^ p := by
          calc n.natAbs
              = 2 ^ twoVal n.natAbs * (n.natAbs / 2 ^ twoVal n.natAbs) := heqd
            _ < 2 ^ twoVal n.natAbs * 2 ^ p :=
                mul_lt_mul_of_pos_left hlt2 (by positivity)
        have hlt4 : n.natAbs < 2 ^ Nat.log 2 n.natAbs := by
          have hvle : twoVal n.natAbs + p ≤ Nat.log 2 n.natAbs := by omega
          calc n.natAbs < 2 ^ (twoVal n.natAbs + p) := by rw [pow_add]; exact hlt3
            _ ≤ 2 ^ Nat.log 2 n.natAbs := Nat.pow_le_pow_right (by norm_num) hvle
        have := Nat.pow_log_le_self 2 hna
        omega
      apply rhe_dvd
      rw [int_pow2_dvd]
      exact dvd_trans (Nat.pow_dvd_pow 2 hvk) (twoVal_spec n.natAbs hna).1

theorem int_as_valQ (n : Int) : ((n : ℚ)) = valQ n 0 := by
  rw [valQ]
  simp

theorem wrap_core (lo : Int) (w : Nat) (n : Int) :
    ((n - lo) % (2 ^ w : Int) + lo = n) ↔ (lo ≤ n ∧ n ≤ lo + 2 ^ w - 1) := by
  have hpos : (0:Int) < 2 ^ w := by positivity
  constructor
  · intro h
    have h1 : 0 ≤ (n - lo) % (2 ^ w : Int) := Int.emod_nonneg _ (by positivity)
    have h2 : (n - lo) % (2 ^ w : Int) < 2 ^ w := Int.emod_lt_of_pos _ hpos
    omega
  · intro h
    have heq : (n - lo) % (2 ^ w : Int) = n - lo :=
      Int.emod_eq_of_lt (by omega) (by omega)
    omega

theorem intRep_iff (n lo hi : Int) :
    (∃ z : Int, (z : ℚ) = (n : ℚ) ∧ lo ≤ z ∧ z ≤ hi) ↔ (lo ≤ n ∧ n ≤ hi) := by
  constructor
  · rintro ⟨z, hz, h1, h2⟩
    have hzn : z = n := by exact_mod_cast hz
    subst hzn
    exact ⟨h1, h2⟩
  · intro h
    exact ⟨n, rfl, h.1, h.2⟩

theorem fits_nan (v : NodataVal) (d : NpDtype) (hv : isNanVal v = true) :
    numpy_value_fits_dtype v d = true ↔ exactRep v d := by
  cases v with
  | nanF => exact Iff.rfl
  | nanS => exact Iff.rfl
  | intV n => simp [isNanVal] at hv
  | floatV m e => simp [isNanVal] at hv

theorem fits_int_intdtype (n : Int) (d : NpDtype) (hd : d.isFloating = false) :
    numpy_value_fits_dtype (NodataVal.intV n) d = true ↔
      exactRep (NodataVal.intV n) d := by
  have key : ∀ (lo : Int) (w : Nat) (hi : Int), hi = lo + 2 ^ w - 1 →
      (((n - lo) % (2 ^ w : Int) + lo == n) = true ↔
        ∃ z : Int, (z : ℚ) = (n : ℚ) ∧ lo ≤ z ∧ z ≤ hi) := by
    intro lo w hi hhi
    rw [beq_iff_eq, intRep_iff, wrap_core lo w n, hhi]
  cases d
  case uint8 => exact key 0 8 (2 ^ 8 - 1) (by norm_num)
  case int16 => exact key (-(2 ^ 15)) 16 (2 ^ 15 - 1) (by norm_num)
  case int32 => exact key (-(2 ^ 31)) 32 (2 ^ 31 - 1) (by norm_num)
  case int64 => exact key (-(2 ^ 63)) 64 (2 ^ 63 - 1) (by norm_num)
  case float32 => simp [NpDtype.isFloating] at hd
  case float64 => simp [NpDtype.isFloating] at hd

theorem intAbsQ_le (n : Int) (b : Nat) (h : n.natAbs ≤ 2 ^ b) (c : Int)
    (hbc : (b : Int) < c) : |(n : ℚ)| < (2:ℚ) ^ c := by
  rw [int_as_valQ, valQ_abs]
  simp only [zpow_zero, mul_one]
  calc ((n.natAbs : ℚ)) ≤ ((2 ^ b : ℕ) : ℚ) := by exact_mod_cast h
    _ = (2:ℚ) ^ ((b : ℤ)) := by push_cast; rw [zpow_natCast]
    _ < (2:ℚ) ^ c := zpow_lt_zpow_right₀ (by norm_num) hbc

theorem oddpart_lt_of_le (n : Int) (hn : n ≠ 0) (b : Nat) (hb : 1 ≤ b)
    (h : n.natAbs ≤ 2 ^ b) : n.natAbs / 2 ^ twoVal n.natAbs < 2 ^ b := by
  have hna : n.natAbs ≠ 0 := Int.natAbs_ne_zero.mpr hn
  rcases Nat.lt_or_ge n.natAbs (2 ^ b) with hlt | hge
  · calc n.natAbs / 2 ^ twoVal n.natAbs ≤ n.natAbs := Nat.div_le_self _ _
      _ < 2 ^ b := hlt
  · have heq : n.natAbs = 2 ^ b := by omega
    have hv : 1 ≤ twoVal n.natAbs := by
      apply le_twoVal_of_dvd _ _ hna
      rw [heq, pow_one]
      exact dvd_pow_self 2 (by omega)
    have hle2 : n.natAbs / 2 ^ twoVal n.natAbs ≤ n.natAbs / 2 ^ 1 :=
      Nat.div_le_div_left (Nat.pow_le_pow_right (by norm_num) hv) (by norm_num)
    have hlt2 : n.natAbs / 2 ^ 1 < 2 ^ b := by
      rw [heq]
      have hp : 0 < 2 ^ b := Nat.two_pow_pos b
      omega
    omega

theorem fits_int_float64 (n : Int) (h : n.natAbs ≤ 2 ^ 53) :
    numpy_value_fits_dtype (NodataVal.intV n) NpDtype.float64 = true ↔
      exactRep (NodataVal.intV n) NpDtype.float64 := by
  constructor
  · intro _
    show repFin 53 (-1074) 1023 ((n : ℚ))
    by_cases hn : n = 0
    · subst hn
      refine ⟨⟨0, 0, by norm_num, by norm_num, by norm_num⟩, ?_⟩
      simp only [Int.cast_zero, abs_zero]
      positivity
    · constructor
      · rw [int_as_valQ, repFloat_iff 53 (-1074) n 0 hn]
        exact ⟨oddpart_lt_of_le n hn 53 (by norm_num) h, by omega⟩
      · exact intAbsQ_le n 53 h (1023 + 1) (by norm_num)
  · intro _
    exact beq_self_eq_true _

theorem fits_int_float32 (n : Int) (h : n.natAbs ≤ 2 ^ 53) :
    numpy_value_fits_dtype (NodataVal.intV n) NpDtype.float32 = true ↔
      exactRep (NodataVal.intV n) NpDtype.float32 := by
  show (roundSig 53 (roundSig 24 n) == roundSig 53 n) = true ↔
    repFin 24 (-149) 127 ((n : ℚ))
  rw [beq_iff_eq]
  rw [roundSig_id_of_le 53 (by norm_num) n h]
  rw [roundSig_id_of_le 53 (by norm_num) (roundSig 24 n)
    (roundSig_bound 24 53 (by norm_num) (by norm_num) n h)]
  by_cases hn : n = 0
  · subst hn
    rw [show roundSig 24 0 = 0 from roundSig_id_of_lt 24 0 (by simp)]
    constructor
    · intro _
      refine ⟨⟨0, 0, by norm_num, by norm_num, by norm_num⟩, ?_⟩
      simp only [Int.cast_zero, abs_zero]
      positivity
    · intro _
      rfl
  · rw [roundSig_fix_iff 24 (by norm_num) n hn]
    constructor
    · intro hm2
      constructor
      · rw [int_as_valQ, repFloat_iff 24 (-149) n 0 hn]
        exact ⟨hm2, by omega⟩
      · exact intAbsQ_le n 53 h (127 + 1) (by norm_num)
    · rintro ⟨hrf, _⟩
      rw [int_as_valQ, repFloat_iff 24 (-149) n 0 hn] at hrf
      exact hrf.1

theorem fits_float_intdtype (m e : Int) (d : NpDtype) (hd : d.isFloating = false) :
    numpy_value_fits_dtype (NodataVal.floatV m e) d = true ↔
      exactRep (NodataVal.floatV m e) d := by
  have key : ∀ lo hi : Int,
      ((match toIntQ m e with
        | some z => decide (lo ≤ z ∧ z ≤ hi)
        | none => false) = true ↔
        ∃ z : Int, (z : ℚ) = valQ m e ∧ lo ≤ z ∧ z ≤ hi) := by
    intro lo hi
    cases htq : toIntQ m e with
    | none =>
        simp only [Bool.false_eq_true, false_iff, not_exists]
        rintro z ⟨hz, _⟩
        exact toIntQ_none m e htq z hz
    | some z =>
        simp only [decide_eq_true_iff]
        constructor
        · intro hb
          exact ⟨z, toIntQ_correct m e z htq, hb⟩
        · rintro ⟨z2, hz2, hb⟩
          have hz2z : z2 = z := by
            have h1 := toIntQ_correct m e z htq
            have h2 : (z2 : ℚ) = (z : ℚ) := by rw [hz2, h1]
            exact_mod_cast h2
          exact hz2z ▸ hb
  cases d
  case uint8 => exact key _ _
  case int16 => exact key _ _
  case int32 => exact key _ _
  case int64 => exact key _ _
  case float32 => simp [NpDtype.isFloating] at hd
  case float64 => simp [NpDtype.isFloating] at hd

theorem fits_float_float32 (m e : Int) :
    numpy_value_fits_dtype (NodataVal.floatV m e) NpDtype.float32 = true ↔
      exactRep (NodataVal.floatV m e) NpDtype.float32 :=
  fitsF32pair_iff m e

theorem fits_float_float64 (m e : Int) (hm : m.natAbs < 2 ^ 53) (he : -1074 ≤ e)
    (hb : magLtB m e 1024 = true) :
    numpy_value_fits_dtype (NodataVal.floatV m e) NpDtype.float64 = true ↔
      exactRep (NodataVal.floatV m e) NpDtype.float64 := by
  constructor
  · intro _
    show repFin 53 (-1074) 1023 (valQ m e)
    refine ⟨⟨m, e, rfl, hm, he⟩, ?_⟩
    rw [show ((1023:ℤ) + 1) = (((1024:ℕ)) : ℤ) by norm_num]
    exact (magLtB_iff m e 1024).mp hb
  · intro _
    rfl

theorem counter_fits : numpy_value_fits_dtype (NodataVal.intV (2 ^ 53 + 1))
    NpDtype.float64 = true :=
  beq_self_eq_true _

theorem counter_norep : ¬ exactRep (NodataVal.intV (2 ^ 53 + 1)) NpDtype.float64 := by
  intro hrep
  have hrf : repFloat 53 (-1074) ((((2:ℤ) ^ 53 + 1 : ℤ) : ℚ)) := hrep.1
  rw [int_as_valQ, repFloat_iff 53 (-1074) _ 0 (by positivity)] at hrf
  have hna : ((2:ℤ) ^ 53 + 1).natAbs = 2 ^ 53 + 1 := by decide
  have hodd : (2 ^ 53 + 1 : ℕ) % 2 = 1 := by decide
  have hv : twoVal ((2:ℤ) ^ 53 + 1).natAbs = 0 := by
    rw [hna]
    exact twoValGo_odd _ _ hodd
  rw [hv, hna] at hrf
  have hcon : (2 ^ 53 + 1 : ℕ) / 2 ^ 0 < 2 ^ 53 := hrf.1
  rw [pow_zero, Nat.div_one] at hcon
  omega

/-- Claim C8: `numpy_value_fits_dtype(nodata, dtype)` decides the
`unsuitable_nodata` error and, as amended, returns True iff the nodata
value is exactly representable in the declared dtype, on the domains where
the numpy comparison pipeline is faithful: NaN values fit exactly the
floating dtypes; numeric values against the integer dtypes and float
values against `float32` are characterized exactly; integer values against
the float dtypes are characterized for magnitudes up to `2 ^ 53` (beyond
which the promoted binary64 comparison loses precision, see the
counterexample); float values against `float64` are trivially accepted and
exactly representable on the binary64 domain. -/
theorem claim_C8 :
    (∀ (v : NodataVal) (d : NpDtype), isNanVal v = true →
       (numpy_value_fits_dtype v d = true ↔ exactRep v d)) ∧
    (∀ (n : Int) (d : NpDtype), d.isFloating = false →
       (numpy_value_fits_dtype (NodataVal.intV n) d = true ↔
         exactRep (NodataVal.intV n) d)) ∧
    (∀ n : Int, n.natAbs ≤ 2 ^ 53 →
       (numpy_value_fits_dtype (NodataVal.intV n) NpDtype.float32 = true ↔
         exactRep (NodataVal.intV n) NpDtype.float32)) ∧
    (∀ n : Int, n.natAbs ≤ 2 ^ 53 →
       (numpy_value_fits_dtype (NodataVal.intV n) NpDtype.float64 = true ↔
         exactRep (NodataVal.intV n) NpDtype.float64)) ∧
    (∀ (m e : Int) (d : NpDtype), d.isFloating = false →
       (numpy_value_fits_dtype (NodataVal.floatV m e) d = true ↔
         exactRep (NodataVal.floatV m e) d)) ∧
    (∀ m e : Int,
       numpy_value_fits_dtype (NodataVal.floatV m e) NpDtype.float32 = true ↔
         exactRep (NodataVal.floatV m e) NpDtype.float32) ∧
    (∀ m e : Int, m.natAbs < 2 ^ 53 → -1074 ≤ e → magLtB m e 1024 = true →
       (numpy_value_fits_dtype (NodataVal.floatV m e) NpDtype.float64 = true ↔
         exactRep (NodataVal.floatV m e) NpDtype.float64)) :=
  ⟨fits_nan, fits_int_intdtype, fits_int_float32, fits_int_float64,
    fits_float_intdtype, fits_float_float32, fits_float_float64⟩

/-- The spec as written fails at integer nodata `2 ^ 53 + 1` against
`float64`: the code compares `float64(value) == float64(value)` and returns
True, yet the odd value `2 ^ 53 + 1` needs 54 mantissa bits and is not
exactly representable in binary64. -/
theorem claim_C8_counterexample :
    numpy_value_fits_dtype (NodataVal.intV (2 ^ 53 + 1)) NpDtype.float64 = true ∧
    ¬ exactRep (NodataVal.intV (2 ^ 53 + 1)) NpDtype.float64 :=
  ⟨counter_fits, counter_norep⟩

theorem claim_C8_witness :
    (isNanVal NodataVal.nanF = true ∧
      (numpy_value_fits_dtype NodataVal.nanF NpDtype.float32 = true ↔
        exactRep NodataVal.nanF NpDtype.float32)) ∧
    (NpDtype.isFloating NpDtype.int32 = false ∧
      (numpy_value_fits_dtype NodataVal.nanF NpDtype.int32 = true ↔
        exactRep NodataVal.nanF NpDtype.int32)) ∧
    (NpDtype.isFloating NpDtype.uint8 = false ∧
      (numpy_value_fits_dtype (NodataVal.intV (-3)) NpDtype.uint8 = true ↔
        exactRep (NodataVal.intV (-3)) NpDtype.uint8)) ∧
    (numpy_value_fits_dtype (NodataVal.floatV 7 (-1)) NpDtype.float32 = true ↔
      exactRep (NodataVal.floatV 7 (-1)) NpDtype.float32) ∧
    (NpDtype.isFloating NpDtype.int16 = false ∧
      (numpy_value_fits_dtype (NodataVal.floatV 7 (-1)) NpDtype.int16 = true ↔
        exactRep (NodataVal.floatV 7 (-1)) NpDtype.int16)) :=
  ⟨⟨rfl, claim_C8.1 NodataVal.nanF NpDtype.float32 rfl⟩,
   ⟨rfl, claim_C8.1 NodataVal.nanF NpDtype.int32 rfl⟩,
   ⟨rfl, claim_C8.2.1 (-3) NpDtype.uint8 rfl⟩,
   claim_C8.2.2.2.2.2.1 7 (-1),
   ⟨rfl, claim_C8.2.2.2.2.1 7 (-1) NpDtype.int16 rfl⟩⟩

end EO3


